import Mathlib

/-!
# gregjm::SmallString

A shallow embedding of `include/small_string.hpp` (instantiated with the default
template arguments `std::char_traits<char>` and `std::allocator<char>`) on a 64-bit,
little-endian layout: `size_type` is 64 bits wide, `SMALL_CAPACITY = 16`.

* A `char` is a `Byte`; a block of memory is a `List Byte`.
* The object is the pair `data_` (the heap pointer, `none` for `nullptr`) and
  `storage`, the 16 bytes of the anonymous union that `size_` and `small_data_`
  both name.  `size_.size` is the little-endian value of bytes `0..7`,
  `size_.capacity` that of bytes `8..15`.
* An access outside the block it addresses is undefined behaviour in C++; the
  embedding reports it as `Fault.undefined` instead of producing a state.
* A `const char*` argument is the memory it points to; its length is found by
  scanning for the first zero byte, as `traits_type::length` does.
-/

namespace gregjm

/-- A `char`, 8 bits wide. -/
abbrev Byte := Fin 256

/-- Number of values of `size_type` (64 bits). -/
def SIZE_MOD : Nat := 2 ^ 64

/-- The ways an operation can end without producing a state. -/
inductive Fault where
  /-- The exception `std::bad_alloc`. -/
  | bad_alloc
  /-- The exception `std::out_of_range`. -/
  | out_of_range
  /-- An access outside the addressed block, or through a null pointer. -/
  | undefined
  deriving DecidableEq, Repr

/-- The constant `static constexpr auto SMALL_CAPACITY = 2 * sizeof(size_type);` -/
def SMALL_CAPACITY : Nat := 2 * 8

/-! ## Memory primitives -/

/-- The assignment `block[index] = value`, inside the block only. -/
def store (block : List Byte) (index : Nat) (value : Byte) : Except Fault (List Byte) :=
  if index < block.length then .ok (block.set index value) else .error .undefined

/-- Modelled from the spec: `traits_type::length` of the character-traits capability
(`std::char_traits<char>`, which is not part of the repository): the offset of the
first zero byte.  Running off the end of the block without meeting one is a read
outside the block. -/
def traits_length : List Byte → Except Fault Nat
  | [] => .error .undefined
  | b :: rest =>
    if b = 0 then .ok 0
    else match traits_length rest with
      | .ok n => .ok (n + 1)
      | .error e => .error e

/-- Modelled from the spec: `traits_type::copy(dst, src, count)` of the character-traits
capability (`std::char_traits<char>`, which is not part of the repository): the first
`count` bytes of `dst` become the first `count` bytes of `src`; both blocks must hold
that many bytes. -/
def traits_copy (dst src : List Byte) (count : Nat) : Except Fault (List Byte) :=
  if count ≤ dst.length ∧ count ≤ src.length then .ok (src.take count ++ dst.drop count)
  else .error .undefined

/-- Modelled from the spec: `traits_type::compare(a, b, count)` of the character-traits
capability (`std::char_traits<char>`, which is not part of the repository):
lexicographic comparison of the first `count` bytes as unsigned values, the result
being the difference at the first mismatch and zero when there is none.  The callers
pass a `count` that both blocks hold; the comparison stops where a block ends. -/
def char_traits_compare : List Byte → List Byte → Nat → Int
  | _, _, 0 => 0
  | x :: xs, y :: ys, count + 1 =>
    if x = y then char_traits_compare xs ys count else (x.val : Int) - (y.val : Int)
  | _, _, _ + 1 => 0

/-- The 8 bytes of a `size_type` value, least significant first. -/
def le_bytes (value : Nat) : List Byte :=
  (List.range 8).map fun i => Fin.ofNat (value / 256 ^ i)

/-- The value of a little-endian byte string. -/
def le_value : List Byte → Nat
  | [] => 0
  | b :: rest => b.val + 256 * le_value rest

/-- The conversion `static_cast<int>` of a `size_type` value: the low 32 bits, read as
two's complement. -/
def static_cast_int (value : Nat) : Int :=
  if value % 2 ^ 32 < 2 ^ 31 then (value % 2 ^ 32 : Nat)
  else ((value % 2 ^ 32 : Nat) : Int) - 2 ^ 32

/-! ## The allocator -/

/-- Modelled from the spec: the allocator capability (`std::allocator<char>`, which is
not part of the repository), given by the requests it refuses and by what a fresh
block of `n` bytes holds at each offset before anything is written to it. -/
structure Allocator where
  refuses : Nat → Bool
  fresh : Nat → Nat → Byte

/-- Modelled from the spec: `AllocTraits_t::allocate(alloc_, n)`, a fresh block of `n`
bytes; `none` stands for both a null result and a thrown `std::bad_alloc`. -/
def Allocator.allocate (alloc_ : Allocator) (n : Nat) : Option (List Byte) :=
  if alloc_.refuses n then none else some ((List.range n).map (alloc_.fresh n))

/-! ## The object -/

/-- The data members of `SmallString`: `data_` and the union of `size_` with
`small_data_`. -/
structure SmallString where
  data_ : Option (List Byte)
  storage : List Byte
  deriving DecidableEq, Repr

namespace SmallString

/-- The member `size_.size`. -/
def size_size (self : SmallString) : Nat := le_value (self.storage.take 8)

/-- The member `size_.capacity`. -/
def size_capacity (self : SmallString) : Nat := le_value ((self.storage.drop 8).take 8)

/-- The assignment `size_.size = value;` -/
def set_size_size (self : SmallString) (value : Nat) : SmallString :=
  { self with storage := le_bytes value ++ self.storage.drop 8 }

/-- The assignment `size_.capacity = value;` -/
def set_size_capacity (self : SmallString) (value : Nat) : SmallString :=
  { self with storage := self.storage.take 8 ++ le_bytes value ++ self.storage.drop 16 }

/-- The constructor `SmallString() noexcept = default;` with the member initialisers
`data_ = nullptr` and `size_{ 0, 0 }`. -/
def default : SmallString :=
  { data_ := none, storage := le_bytes 0 ++ le_bytes 0 }

/-- The function `data()`: the inline array when `data_` is null, the heap block
otherwise. -/
def data (self : SmallString) : List Byte :=
  match self.data_ with
  | none => self.storage
  | some block => block

/-- Replace the block `data()` points to. -/
def with_data (self : SmallString) (block : List Byte) : SmallString :=
  match self.data_ with
  | none => { self with storage := block }
  | some _ => { self with data_ := some block }

/-- The function `small_size()`: `traits_type::length(small_data_)`. -/
def small_size (self : SmallString) : Except Fault Nat :=
  traits_length self.storage

/-- The function `size()`. -/
def size (self : SmallString) : Except Fault Nat :=
  match self.data_ with
  | none => self.small_size
  | some _ => .ok self.size_size

/-- The function `capacity()`. -/
def capacity (self : SmallString) : Nat :=
  match self.data_ with
  | none => SMALL_CAPACITY - 1
  | some _ => self.size_capacity

/-- The function `deallocate()`: `destroy` on a `char` does nothing; the pointer is
reset. -/
def deallocate (self : SmallString) : SmallString :=
  match self.data_ with
  | some _ => { self with data_ := none }
  | none => self

/-- The function `reserve(new_capacity)`. -/
def reserve (alloc_ : Allocator) (new_capacity : Nat) (self : SmallString) :
    Except Fault SmallString :=
  if new_capacity ≤ self.capacity then .ok self
  else if new_capacity > SMALL_CAPACITY then
    match alloc_.allocate ((new_capacity + 1) % SIZE_MOD) with
    | none => .error .bad_alloc
    | some new_data => do
      let current_size ← self.size
      let new_data ← traits_copy new_data self.data current_size
      let self := self.deallocate
      let self := { self with data_ := some new_data }
      let new_data ← store new_data current_size 0
      let self := { self with data_ := some new_data }
      let self := self.set_size_size current_size
      let self := self.set_size_capacity new_capacity
      pure self
  else
    match self.data_ with
    | none => do
      let small_data_ ← store self.storage new_capacity 0
      pure { self with storage := small_data_ }
    | some _ => .ok self

/-- The function `clear()`. -/
def clear (self : SmallString) : SmallString :=
  let self := self.set_size_size 0
  let self := self.set_size_capacity 0
  self.deallocate

/-- The constructor `SmallString(const char *const string)`: the default member
initialisers, then the constructor body. -/
def from_c_str (alloc_ : Allocator) (string : List Byte) : Except Fault SmallString := do
  let self := default
  let string_length ← traits_length string
  let self ← self.reserve alloc_ string_length
  let block ← traits_copy self.data string string_length
  let self := self.with_data block
  match self.data_ with
  | some _ => pure (self.set_size_size string_length)
  | none => pure self

/-- The operator `operator=(const char *const string)`. -/
def operator_assign (alloc_ : Allocator) (string : List Byte) (self : SmallString) :
    Except Fault SmallString := do
  let string_length ← traits_length string
  let self ← self.reserve alloc_ string_length
  let block ← traits_copy self.data string string_length
  let self := self.with_data block
  match self.data_ with
  | some _ => pure (self.set_size_size string_length)
  | none => pure self

/-- A loop `for (i = first; cond(i); ++i) construct(alloc_, i, character)` over the
block that `data()` points to, `i` being the offset from `begin()`; `construct` on a
`char` stores `character` at `i`.  Every pass stores inside the block at a larger
offset than the one before, so `fuel` above the length of the block is never used
up (`construct_loop_fuel`). -/
def construct_loop (continues : Nat → Bool) (character : Byte) :
    Nat → Nat → List Byte → Except Fault (List Byte)
  | 0, _, _ => .error .undefined
  | fuel + 1, i, block =>
    if continues i then
      match store block i character with
      | .ok block => construct_loop continues character fuel (i + 1) block
      | .error e => .error e
    else .ok block

/-- The function `resize(new_size, character)`. -/
def resize (alloc_ : Allocator) (new_size : Nat) (character : Byte) (self : SmallString) :
    Except Fault SmallString :=
  match self.data_ with
  | some _ =>
    if new_size > self.size_size then do
      let self ← self.reserve alloc_ new_size
      let end_ ← self.size
      -- for (auto i = end() + 1; i < begin() + new_size; ++i)
      let block ← construct_loop (fun i => decide (i < new_size)) character
        (self.data.length + 1) (end_ + 1) self.data
      let self := self.with_data block
      match self.data_ with
      | none => .error .undefined
      | some block => do
        let block ← store block new_size 0
        let self := { self with data_ := some block }
        pure (self.set_size_size new_size)
    else do
      -- the `destroy` loop does nothing for `char`
      match self.data_ with
      | none => .error .undefined
      | some block => do
        let block ← store block new_size 0
        let self := { self with data_ := some block }
        pure (self.set_size_size new_size)
  | none => do
    let small_size ← self.small_size
    if new_size > small_size then do
      let self ← self.reserve alloc_ new_size
      let end_ ← self.size
      -- for (auto i = end(); i != begin() + new_size; ++i)
      let block ← construct_loop (fun i => decide (i ≠ new_size)) character
        (self.data.length + 1) end_ self.data
      let self := self.with_data block
      if new_size > SMALL_CAPACITY then
        match self.data_ with
        | none => .error .undefined
        | some block => do
          let block ← store block new_size 0
          let self := { self with data_ := some block }
          pure (self.set_size_size new_size)
      else do
        let small_data_ ← store self.storage new_size 0
        pure { self with storage := small_data_ }
    else do
      let small_data_ ← store self.storage new_size 0
      pure { self with storage := small_data_ }

/-- The function `compare(const char *const other)`, over the character comparison
`traits_compare` of the traits class. -/
def compare_with (traits_compare : List Byte → List Byte → Nat → Int)
    (self : SmallString) (other : List Byte) : Except Fault Int := do
  let string_length ← traits_length other
  let size ← self.size
  let rlen := min size string_length
  let compared := traits_compare self.data other rlen
  if compared = 0 then
    pure (static_cast_int ((size + SIZE_MOD - string_length) % SIZE_MOD))
  else pure compared

/-- The function `compare(const char *const other)` for `std::char_traits<char>`. -/
def compare (self : SmallString) (other : List Byte) : Except Fault Int :=
  compare_with char_traits_compare self other

/-- The operator `operator==(const SmallString &lhs, const char *const rhs)`. -/
def operator_eq (lhs : SmallString) (rhs : List Byte) : Except Fault Bool := do
  let compared ← lhs.compare rhs
  pure (decide (compared = 0))

/-- The logical content: the first `size()` bytes of `data()`. -/
def content (self : SmallString) : Except Fault (List Byte) := do
  let size ← self.size
  if size ≤ self.data.length then pure (self.data.take size) else .error .undefined

/-! ### Comparison with an instance, and the relational operators

The suffix `_ss` marks the overload taking two instances, `_cs` the one with the raw
sequence on the left; the overload with the raw sequence on the right has no suffix. -/

/-- The function `compare(const SmallString<Traits, Allocator2> &other)`, over the
character comparison `traits_compare` of the traits class. -/
def compare_small_string_with (traits_compare : List Byte → List Byte → Nat → Int)
    (self other : SmallString) : Except Fault Int := do
  let size ← self.size
  let other_size ← other.size
  let rlen := min size other_size
  let compared := traits_compare self.data other.data rlen
  if compared = 0 then
    pure (static_cast_int ((size + SIZE_MOD - other_size) % SIZE_MOD))
  else pure compared

/-- The function `compare(const SmallString<Traits, Allocator2> &other)` for
`std::char_traits<char>`. -/
def compare_small_string (self other : SmallString) : Except Fault Int :=
  compare_small_string_with char_traits_compare self other

/-- The operator `operator==(const SmallString &lhs, const SmallString &rhs)`. -/
def operator_eq_ss (lhs rhs : SmallString) : Except Fault Bool := do
  let compared ← lhs.compare_small_string rhs
  pure (decide (compared = 0))

/-- The operator `operator==(const char *const lhs, const SmallString &rhs)`. -/
def operator_eq_cs (lhs : List Byte) (rhs : SmallString) : Except Fault Bool := do
  let compared ← rhs.compare lhs
  pure (decide (compared = 0))

/-- The operator `operator!=(const SmallString &lhs, const SmallString &rhs)`. -/
def operator_ne_ss (lhs rhs : SmallString) : Except Fault Bool := do
  let equal ← lhs.operator_eq_ss rhs
  pure (!equal)

/-- The operator `operator!=(const SmallString &lhs, const char *const rhs)`. -/
def operator_ne (lhs : SmallString) (rhs : List Byte) : Except Fault Bool := do
  let compared ← lhs.compare rhs
  pure (decide (compared ≠ 0))

/-- The operator `operator!=(const char *const lhs, const SmallString &rhs)`. -/
def operator_ne_cs (lhs : List Byte) (rhs : SmallString) : Except Fault Bool := do
  let compared ← rhs.compare lhs
  pure (decide (compared ≠ 0))

/-- The operator `operator<(const SmallString &lhs, const SmallString &rhs)`. -/
def operator_lt_ss (lhs rhs : SmallString) : Except Fault Bool := do
  let compared ← lhs.compare_small_string rhs
  pure (decide (compared < 0))

/-- The operator `operator<(const SmallString &lhs, const char *const rhs)`. -/
def operator_lt (lhs : SmallString) (rhs : List Byte) : Except Fault Bool := do
  let compared ← lhs.compare rhs
  pure (decide (compared < 0))

/-- The operator `operator<(const char *const lhs, const SmallString &rhs)`. -/
def operator_lt_cs (lhs : List Byte) (rhs : SmallString) : Except Fault Bool := do
  let compared ← rhs.compare lhs
  pure (decide (compared > 0))

/-- The operator `operator<=(const SmallString &lhs, const SmallString &rhs)`:
`not (rhs < lhs)`. -/
def operator_le_ss (lhs rhs : SmallString) : Except Fault Bool := do
  let less ← rhs.operator_lt_ss lhs
  pure (!less)

/-- The operator `operator<=(const SmallString &lhs, const char *const rhs)`:
`not (rhs < lhs)`. -/
def operator_le (lhs : SmallString) (rhs : List Byte) : Except Fault Bool := do
  let less ← operator_lt_cs rhs lhs
  pure (!less)

/-- The operator `operator<=(const char *const lhs, const SmallString &rhs)`:
`not (rhs < lhs)`. -/
def operator_le_cs (lhs : List Byte) (rhs : SmallString) : Except Fault Bool := do
  let less ← rhs.operator_lt lhs
  pure (!less)

/-- The operator `operator>(const SmallString &lhs, const SmallString &rhs)`:
`rhs < lhs`. -/
def operator_gt_ss (lhs rhs : SmallString) : Except Fault Bool :=
  rhs.operator_lt_ss lhs

/-- The operator `operator>(const SmallString &lhs, const char *const rhs)`:
`rhs < lhs`. -/
def operator_gt (lhs : SmallString) (rhs : List Byte) : Except Fault Bool :=
  operator_lt_cs rhs lhs

/-- The operator `operator>(const char *const lhs, const SmallString &rhs)`:
`rhs < lhs`. -/
def operator_gt_cs (lhs : List Byte) (rhs : SmallString) : Except Fault Bool :=
  rhs.operator_lt lhs

/-- The operator `operator>=(const SmallString &lhs, const SmallString &rhs)`:
`not (lhs < rhs)`. -/
def operator_ge_ss (lhs rhs : SmallString) : Except Fault Bool := do
  let less ← lhs.operator_lt_ss rhs
  pure (!less)

/-- The operator `operator>=(const SmallString &lhs, const char *const rhs)`:
`not (lhs < rhs)`. -/
def operator_ge (lhs : SmallString) (rhs : List Byte) : Except Fault Bool := do
  let less ← lhs.operator_lt rhs
  pure (!less)

/-- The operator `operator>=(const char *const lhs, const SmallString &rhs)`:
`not (lhs < rhs)`. -/
def operator_ge_cs (lhs : List Byte) (rhs : SmallString) : Except Fault Bool := do
  let less ← operator_lt_cs lhs rhs
  pure (!less)

/-! ### Element access -/

/-- The function `bounds_check(index)`. -/
def bounds_check (self : SmallString) (index : Nat) : Except Fault Unit := do
  let size ← self.size
  if index ≥ size then .error .out_of_range else pure ()

/-- The operator `operator[](index)`: `data()[index]`, a read inside the block that
`data()` points to. -/
def operator_index (self : SmallString) (index : Nat) : Except Fault Byte :=
  match self.data[index]? with
  | some value => .ok value
  | none => .error .undefined

/-- The function `at(index)`. -/
def at_ (self : SmallString) (index : Nat) : Except Fault Byte := do
  self.bounds_check index
  self.operator_index index

/-! ### The object an operation leaves behind

The same member functions once more, this time returning the object as the call
leaves it together with the exception (or fault) the call ended on, if any: a member
function works on `*this`, and what it has written by the time it throws stays
written. -/

/-- The outcome of a call as a result: the object when the call returned, the
exception or fault otherwise. -/
def result (outcome : SmallString × Option Fault) : Except Fault SmallString :=
  match outcome with
  | (self, none) => .ok self
  | (_, some e) => .error e

/-- The function `reserve(new_capacity)`, with the object it leaves. -/
def reserve_in_place (alloc_ : Allocator) (new_capacity : Nat) (self : SmallString) :
    SmallString × Option Fault :=
  if new_capacity ≤ self.capacity then (self, none)
  else if new_capacity > SMALL_CAPACITY then
    match alloc_.allocate ((new_capacity + 1) % SIZE_MOD) with
    | none => (self, some .bad_alloc)
    | some new_data =>
      match self.size with
      | .error e => (self, some e)
      | .ok current_size =>
        match traits_copy new_data self.data current_size with
        | .error e => (self, some e)
        | .ok new_data =>
          let self := self.deallocate
          let self := { self with data_ := some new_data }
          match store new_data current_size 0 with
          | .error e => (self, some e)
          | .ok new_data =>
            let self := { self with data_ := some new_data }
            let self := self.set_size_size current_size
            let self := self.set_size_capacity new_capacity
            (self, none)
  else
    match self.data_ with
    | none =>
      match store self.storage new_capacity 0 with
      | .error e => (self, some e)
      | .ok small_data_ => ({ self with storage := small_data_ }, none)
    | some _ => (self, none)

/-- The operator `operator=(const char *const string)`, with the object it leaves. -/
def operator_assign_in_place (alloc_ : Allocator) (string : List Byte) (self : SmallString) :
    SmallString × Option Fault :=
  match traits_length string with
  | .error e => (self, some e)
  | .ok string_length =>
    match self.reserve_in_place alloc_ string_length with
    | (self, some e) => (self, some e)
    | (self, none) =>
      match traits_copy self.data string string_length with
      | .error e => (self, some e)
      | .ok block =>
        let self := self.with_data block
        match self.data_ with
        | some _ => (self.set_size_size string_length, none)
        | none => (self, none)

/-- The terminator store and size update that end a `resize` on the heap:
`data_[new_size] = '\0'; size_.size = new_size;`, with the object they leave. -/
def terminate_in_place (new_size : Nat) (self : SmallString) : SmallString × Option Fault :=
  match self.data_ with
  | none => (self, some .undefined)
  | some block =>
    match store block new_size 0 with
    | .error e => (self, some e)
    | .ok block =>
      let self := { self with data_ := some block }
      (self.set_size_size new_size, none)

/-- The function `resize(new_size, character)`, with the object it leaves. -/
def resize_in_place (alloc_ : Allocator) (new_size : Nat) (character : Byte)
    (self : SmallString) : SmallString × Option Fault :=
  match self.data_ with
  | some _ =>
    if new_size > self.size_size then
      match self.reserve_in_place alloc_ new_size with
      | (self, some e) => (self, some e)
      | (self, none) =>
        match self.size with
        | .error e => (self, some e)
        | .ok end_ =>
          match construct_loop (fun i => decide (i < new_size)) character
              (self.data.length + 1) (end_ + 1) self.data with
          | .error e => (self, some e)
          | .ok block => terminate_in_place new_size (self.with_data block)
    else terminate_in_place new_size self
  | none =>
    match self.small_size with
    | .error e => (self, some e)
    | .ok small_size =>
      if new_size > small_size then
        match self.reserve_in_place alloc_ new_size with
        | (self, some e) => (self, some e)
        | (self, none) =>
          match self.size with
          | .error e => (self, some e)
          | .ok end_ =>
            match construct_loop (fun i => decide (i ≠ new_size)) character
                (self.data.length + 1) end_ self.data with
            | .error e => (self, some e)
            | .ok block =>
              let self := self.with_data block
              if new_size > SMALL_CAPACITY then terminate_in_place new_size self
              else
                match store self.storage new_size 0 with
                | .error e => (self, some e)
                | .ok small_data_ => ({ self with storage := small_data_ }, none)
      else
        match store self.storage new_size 0 with
        | .error e => (self, some e)
        | .ok small_data_ => ({ self with storage := small_data_ }, none)

/-! ### Invariant, reachability, and the states the operations produce -/

/-- The representation invariant: the union is 16 bytes wide; inline, its last byte
is the terminator; on the heap, the block has `capacity + 1` bytes, `size` is at
most `capacity`, and `capacity` is above `SMALL_CAPACITY`. -/
def Inv (self : SmallString) : Prop :=
  self.storage.length = SMALL_CAPACITY ∧
  match self.data_ with
  | none => self.storage[SMALL_CAPACITY - 1]? = some 0
  | some block =>
    block.length = self.size_capacity + 1 ∧ self.size_size ≤ self.size_capacity ∧
      SMALL_CAPACITY < self.size_capacity

/-- The instances obtained from a constructor followed by assignments, `reserve`,
`resize` and `clear`, with arguments that fit `size_type` and a 64-bit address
space. -/
inductive Reachable : SmallString → Prop
  | default : Reachable default
  | from_c_str (alloc_ : Allocator) (string : List Byte) (t : SmallString) :
      string.length ≤ SIZE_MOD → from_c_str alloc_ string = .ok t → Reachable t
  | operator_assign (alloc_ : Allocator) (string : List Byte) (s t : SmallString) :
      Reachable s → string.length ≤ SIZE_MOD → s.operator_assign alloc_ string = .ok t →
      Reachable t
  | reserve (alloc_ : Allocator) (n : Nat) (s t : SmallString) :
      Reachable s → n < SIZE_MOD → s.reserve alloc_ n = .ok t → Reachable t
  | resize (alloc_ : Allocator) (n : Nat) (c : Byte) (s t : SmallString) :
      Reachable s → n < SIZE_MOD → s.resize alloc_ n c = .ok t → Reachable t
  | clear (s : SmallString) : Reachable s → Reachable s.clear

/-- The state `reserve` leaves when it moves the content to a fresh block. -/
def moved (s : SmallString) (n sz : Nat) (new_data : List Byte) : SmallString :=
  ⟨some (s.data.take sz ++ 0 :: new_data.drop (sz + 1)), le_bytes sz ++ le_bytes n⟩

/-- The state after the copy and the size update of `operator=`. -/
def assigned (s : SmallString) (string : List Byte) (len : Nat) : SmallString :=
  match s.data_ with
  | none => ⟨none, string.take len ++ s.storage.drop len⟩
  | some block => ⟨some (string.take len ++ block.drop len), le_bytes len ++ s.storage.drop 8⟩

/-- The state after a growing `resize` that ends on the heap: the bytes below
`first` stay, `character` fills up to `n`, the terminator is stored at `n`. -/
def grown (s : SmallString) (first n : Nat) (c : Byte) : SmallString :=
  ⟨some (s.data.take first ++ List.replicate (n - first) c ++ 0 :: s.data.drop (n + 1)),
    le_bytes n ++ s.storage.drop 8⟩

end SmallString

/-- The memory of a null-terminated byte sequence with the given bytes before the
terminator. -/
def c_str (bytes : List Byte) : List Byte := bytes ++ [0]

/-- An allocator that never refuses and hands out blocks filled with `0xAA`. -/
def stale_allocator : Allocator := ⟨fun _ => false, fun _ _ => 170⟩

/-- The heap-mode instance constructed from `"0123456789abcdefg"` (17 bytes) with
`stale_allocator`. -/
def seventeen : SmallString :=
  ⟨some [48, 49, 50, 51, 52, 53, 54, 55, 56, 57, 97, 98, 99, 100, 101, 102, 103, 170],
    [17, 0, 0, 0, 0, 0, 0, 0, 17, 0, 0, 0, 0, 0, 0, 0]⟩

/-- An allocator that refuses every request. -/
def refusing_allocator : Allocator := ⟨fun _ => true, fun _ _ => 0⟩

/-- The inline instance constructed from `"abc"`. -/
def abc : SmallString := ⟨none, [97, 98, 99, 0, 0, 0, 0, 0, 0, 0, 0, 0, 0, 0, 0, 0]⟩

/-! ## Memory lemmas -/

theorem le_bytes_length (v : Nat) : (le_bytes v).length = 8 := by
  simp [le_bytes]

theorem le_value_le_bytes (v : Nat) : le_value (le_bytes v) = v % SIZE_MOD := by
  simp [le_bytes, List.range_succ, le_value, Fin.ofNat, SIZE_MOD]
  omega

theorem traits_length_append (xs ys : List Byte) (h : ∀ b ∈ xs, b ≠ 0) :
    traits_length (xs ++ 0 :: ys) = .ok xs.length := by
  induction xs with
  | nil => simp [traits_length]
  | cons x xs ih =>
    have hx : x ≠ 0 := h x (by simp)
    have := ih (fun b hb => h b (by simp [hb]))
    simp [traits_length, hx, this]

theorem traits_length_ok {m : List Byte} {n : Nat} (h : traits_length m = .ok n) :
    n < m.length ∧ (∀ b ∈ m.take n, b ≠ 0) ∧ m = m.take n ++ 0 :: m.drop (n + 1) := by
  induction m generalizing n with
  | nil => simp [traits_length] at h
  | cons x xs ih =>
    by_cases hx : x = 0
    · simp [traits_length, hx] at h
      subst h
      simp [hx]
    · simp only [traits_length, hx, if_false] at h
      cases hr : traits_length xs with
      | error e => simp [hr] at h
      | ok k =>
        simp [hr] at h
        subst h
        obtain ⟨h1, h2, h3⟩ := ih hr
        refine ⟨by simpa using h1, ?_, ?_⟩
        · intro b hb
          simp at hb
          rcases hb with rfl | hb
          · exact hx
          · exact h2 b hb
        · simpa using h3

theorem traits_length_of_zero_at (m : List Byte) (j : Nat) (h : m[j]? = some 0) :
    ∃ k, k ≤ j ∧ traits_length m = .ok k := by
  induction m generalizing j with
  | nil => simp at h
  | cons x xs ih =>
    by_cases hx : x = 0
    · exact ⟨0, Nat.zero_le _, by simp [traits_length, hx]⟩
    · cases j with
      | zero => simp at h; exact absurd h hx
      | succ j =>
        simp at h
        obtain ⟨k, hk, hr⟩ := ih j h
        exact ⟨k + 1, by omega, by simp [traits_length, hx, hr]⟩

theorem set_eq_take_cons_drop (block : List Byte) (i : Nat) (v : Byte) (h : i < block.length) :
    block.set i v = block.take i ++ v :: block.drop (i + 1) := by
  rw [List.set_eq_take_append_cons_drop]
  simp [h]

theorem construct_loop_fill (continues : Nat → Bool) (stop : Nat) (c : Byte)
    (hlt : ∀ j, j < stop → continues j = true) (hstop : continues stop = false) :
    ∀ (fuel i : Nat) (block : List Byte), i ≤ stop → stop ≤ block.length → stop - i < fuel →
      SmallString.construct_loop continues c fuel i block
        = .ok (block.take i ++ List.replicate (stop - i) c ++ block.drop stop) := by
  intro fuel
  induction fuel with
  | zero => intro i block _ _ h; omega
  | succ fuel ih =>
    intro i block hi hs hf
    rcases Nat.eq_or_lt_of_le hi with rfl | hlt'
    · simp [SmallString.construct_loop, hstop]
    · have hib : i < block.length := by omega
      simp only [SmallString.construct_loop, hlt i hlt', if_true, store, hib]
      rw [ih (i + 1) (block.set i c) (by omega) (by simpa using hs) (by omega)]
      congr 1
      rw [set_eq_take_cons_drop block i c hib]
      have e1 : stop - i = (stop - (i + 1)) + 1 := by omega
      have hl : (List.take i block).length = i := by simp; omega
      rw [e1, List.replicate_succ]
      have t1 : List.take (i + 1) (List.take i block ++ c :: List.drop (i + 1) block)
          = List.take i block ++ [c] := by
        rw [List.take_append_eq_append_take]
        simp [hl]
      have t2 : List.drop stop (List.take i block ++ c :: List.drop (i + 1) block)
          = List.drop stop block := by
        rw [List.drop_append_eq_append_drop]
        have : List.drop stop (List.take i block) = [] := by simp; omega
        rw [this, hl]
        obtain ⟨d, rfl⟩ : ∃ d, stop = i + 1 + d := ⟨stop - (i + 1), by omega⟩
        simp [show i + 1 + d - i = d + 1 by omega, List.drop_drop]
      rw [t1, t2]
      simp

/-- More fuel than the block has bytes left changes nothing: the loop has ended, by
its condition or by a store outside the block, before the fuel is used up. -/
theorem construct_loop_fuel (continues : Nat → Bool) (c : Byte) :
    ∀ (fuel i : Nat) (block : List Byte), block.length - i < fuel →
      SmallString.construct_loop continues c (fuel + 1) i block
        = SmallString.construct_loop continues c fuel i block := by
  intro fuel
  induction fuel with
  | zero => intro i block h; omega
  | succ fuel ih =>
    intro i block h
    rw [SmallString.construct_loop]
    conv_rhs => rw [SmallString.construct_loop]
    by_cases hc : continues i = true
    · simp only [hc, if_true]
      by_cases hi : i < block.length
      · simp only [store, hi, if_true]
        exact ih (i + 1) (block.set i c) (by simp; omega)
      · simp only [store, hi, if_false]
    · simp [hc]

theorem le_value_lt (bs : List Byte) : le_value bs < 256 ^ bs.length := by
  induction bs with
  | nil => simp [le_value]
  | cons b bs ih =>
    have hb : b.val < 256 := b.isLt
    simp only [le_value, List.length_cons, pow_succ]
    omega

theorem le_value_take8_lt (bs : List Byte) : le_value (bs.take 8) < SIZE_MOD := by
  have h := le_value_lt (bs.take 8)
  have h8 : (bs.take 8).length ≤ 8 := by simp
  have : 256 ^ (bs.take 8).length ≤ 256 ^ 8 := Nat.pow_le_pow_right (by decide) h8
  have e : (256 : Nat) ^ 8 = SIZE_MOD := by decide
  omega

theorem allocate_some {alloc_ : Allocator} {n : Nat} {block : List Byte}
    (h : alloc_.allocate n = some block) : block.length = n := by
  unfold Allocator.allocate at h
  split at h
  · simp at h
  · simp at h
    subst h
    simp

/-! ## The representation invariant -/

namespace SmallString

theorem size_size_lt (s : SmallString) : s.size_size < SIZE_MOD :=
  le_value_take8_lt _

theorem size_capacity_lt (s : SmallString) : s.size_capacity < SIZE_MOD :=
  le_value_take8_lt _

theorem storage_set_pair (s : SmallString) (a b : Nat) (h : s.storage.length = 16) :
    ((s.set_size_size a).set_size_capacity b).storage = le_bytes a ++ le_bytes b := by
  simp [set_size_size, set_size_capacity, List.take_append_eq_append_take,
    List.drop_append_eq_append_drop, le_bytes_length, h]

theorem size_size_pair (d : Option (List Byte)) (a b : Nat) :
    size_size ⟨d, le_bytes a ++ le_bytes b⟩ = a % SIZE_MOD := by
  simp [size_size, List.take_append_eq_append_take, le_bytes_length, le_value_le_bytes]

theorem size_capacity_pair (d : Option (List Byte)) (a b : Nat) :
    size_capacity ⟨d, le_bytes a ++ le_bytes b⟩ = b % SIZE_MOD := by
  have ht : List.take 8 (le_bytes b) = le_bytes b :=
    List.take_of_length_le (by simp [le_bytes_length])
  simp [size_capacity, List.drop_append_eq_append_drop, le_bytes_length, le_value_le_bytes, ht]

theorem size_size_set_size_size (s : SmallString) (v : Nat) :
    (s.set_size_size v).size_size = v % SIZE_MOD := by
  simp [size_size, set_size_size, List.take_append_eq_append_take, le_bytes_length,
    le_value_le_bytes]

theorem size_capacity_set_size_size (s : SmallString) (v : Nat) :
    (s.set_size_size v).size_capacity = s.size_capacity := by
  simp [size_capacity, set_size_size, List.drop_append_eq_append_drop, le_bytes_length]

theorem inv_default : Inv default := by
  refine ⟨by decide, ?_⟩
  show default.storage[SMALL_CAPACITY - 1]? = some 0
  decide

/-- Under the invariant `size()` returns, and what it returns is at most
`capacity()` and a valid offset into the active block. -/
theorem size_of_inv {s : SmallString} (h : Inv s) :
    ∃ sz, s.size = .ok sz ∧ sz ≤ s.capacity ∧ sz < s.data.length := by
  obtain ⟨h16, hm⟩ := h
  cases hd : s.data_ with
  | none =>
    rw [hd] at hm
    obtain ⟨k, hk, hr⟩ := traits_length_of_zero_at _ _ hm
    refine ⟨k, ?_, ?_, ?_⟩
    · simp [size, hd, small_size, hr]
    · simpa [capacity, hd] using hk
    · simp only [data, hd, h16]
      simp only [SMALL_CAPACITY] at hk ⊢
      omega
  | some block =>
    rw [hd] at hm
    obtain ⟨h1, h2, h3⟩ := hm
    refine ⟨s.size_size, ?_, ?_, ?_⟩
    · simp [size, hd]
    · simpa [capacity, hd] using h2
    · simp only [data, hd, h1]
      omega

/-! ## `reserve` -/

theorem reserve_of_le (alloc_ : Allocator) {n : Nat} {s : SmallString} (h : n ≤ s.capacity) :
    s.reserve alloc_ n = .ok s := by
  simp [reserve, h]

theorem reserve_grow {alloc_ : Allocator} {n sz : Nat} {s : SmallString} {new_data : List Byte}
    (h : Inv s) (hn : s.capacity < n) (h16 : SMALL_CAPACITY < n) (hM : n + 1 < SIZE_MOD)
    (hal : alloc_.allocate (n + 1) = some new_data) (hsz : s.size = .ok sz) :
    s.reserve alloc_ n = .ok (moved s n sz new_data) := by
  obtain ⟨sz', hsz', hcap, hlen⟩ := size_of_inv h
  rw [hsz] at hsz'
  cases hsz'
  have hnl : new_data.length = n + 1 := allocate_some hal
  have hc : traits_copy new_data s.data sz = .ok (s.data.take sz ++ new_data.drop sz) := by
    simp only [traits_copy]
    rw [if_pos ⟨by omega, by omega⟩]
  have hst : store (s.data.take sz ++ new_data.drop sz) sz 0
      = .ok (s.data.take sz ++ 0 :: new_data.drop (sz + 1)) := by
    have hl : (s.data.take sz ++ new_data.drop sz).length = n + 1 := by
      simp [List.length_take, List.length_drop]; omega
    have htl : (s.data.take sz).length = sz := by simp; omega
    simp only [store]
    rw [if_pos (by omega)]
    congr 1
    rw [List.set_append_right _ _ (by omega), htl, Nat.sub_self]
    have hd : new_data.drop sz = new_data[sz] :: new_data.drop (sz + 1) :=
      List.drop_eq_getElem_cons (by omega)
    rw [hd, List.set_cons_zero]
  have h1 : ¬ n ≤ s.capacity := by omega
  have h2 : (n + 1) % SIZE_MOD = n + 1 := Nat.mod_eq_of_lt hM
  have h16s : s.storage.length = 16 := h.1
  simp only [reserve, h1, if_false, h16, if_true, gt_iff_lt, h2, hal, hsz, bind, Except.bind,
    hc, hst, pure, Except.pure]
  congr 1
  have := storage_set_pair ⟨some (s.data.take sz ++ 0 :: new_data.drop (sz + 1)), s.storage⟩
    sz n h16s
  simp only [moved]
  cases hd : s.data_ <;> simp [deallocate, hd, set_size_size, set_size_capacity] at this ⊢ <;>
    exact this

theorem reserve_ok_cases {alloc_ : Allocator} {n : Nat} {s t : SmallString}
    (h : Inv s) (hn : n < SIZE_MOD) (hr : s.reserve alloc_ n = .ok t) :
    (n ≤ s.capacity ∧ t = s) ∨
    (s.capacity < n ∧ SMALL_CAPACITY < n ∧ n + 1 < SIZE_MOD ∧
      ∃ new_data sz, alloc_.allocate (n + 1) = some new_data ∧ s.size = .ok sz ∧
        t = moved s n sz new_data) := by
  by_cases h1 : n ≤ s.capacity
  · left
    rw [reserve_of_le alloc_ h1] at hr
    cases hr
    exact ⟨h1, rfl⟩
  · right
    obtain ⟨sz, hsz, hcap, hlen⟩ := size_of_inv h
    by_cases h16 : SMALL_CAPACITY < n
    · by_cases hM : n + 1 < SIZE_MOD
      · cases hal : alloc_.allocate (n + 1) with
        | none =>
          simp [reserve, h1, h16, Nat.mod_eq_of_lt hM, hal] at hr
        | some new_data =>
          rw [reserve_grow h (by omega) h16 hM hal hsz] at hr
          cases hr
          exact ⟨by omega, h16, hM, new_data, sz, rfl, hsz, rfl⟩
      · exfalso
        have hz : (n + 1) % SIZE_MOD = 0 := by
          have : n + 1 = SIZE_MOD := by omega
          rw [this]; exact Nat.mod_self _
        cases hal : alloc_.allocate 0 with
        | none => simp [reserve, h1, h16, hz, hal] at hr
        | some new_data =>
          have hnl : new_data.length = 0 := allocate_some hal
          have hnil : new_data = [] := List.length_eq_zero.mp hnl
          subst hnil
          rcases Nat.eq_zero_or_pos sz with rfl | hpos
          · simp [reserve, h1, h16, hz, hal, hsz, bind, Except.bind, traits_copy, store] at hr
          · have hne : ¬ sz = 0 := by omega
            simp [reserve, h1, h16, hz, hal, hsz, bind, Except.bind, traits_copy, hne] at hr
    · exfalso
      obtain ⟨hs16, hm⟩ := h
      cases hd : s.data_ with
      | none =>
        have hc : s.capacity = SMALL_CAPACITY - 1 := by simp [capacity, hd]
        have hn16 : n = 16 := by simp only [SMALL_CAPACITY] at *; omega
        subst hn16
        simp [reserve, hd, store, hs16, SMALL_CAPACITY, bind, Except.bind, capacity] at hr
      | some block =>
        rw [hd] at hm
        have hc : s.capacity = s.size_capacity := by simp [capacity, hd]
        omega

theorem moved_facts {n sz : Nat} {s : SmallString} {new_data : List Byte}
    (hn : n + 1 < SIZE_MOD) (h16 : SMALL_CAPACITY < n) (hsz : sz ≤ n)
    (hlen : sz < s.data.length) (hnl : new_data.length = n + 1) :
    Inv (moved s n sz new_data) ∧ (moved s n sz new_data).size = .ok sz ∧
      (moved s n sz new_data).capacity = n ∧
      (moved s n sz new_data).data = s.data.take sz ++ 0 :: new_data.drop (sz + 1) ∧
      (moved s n sz new_data).data_ = some (s.data.take sz ++ 0 :: new_data.drop (sz + 1)) := by
  have e1 : (moved s n sz new_data).size_size = sz := by
    simp only [moved, size_size_pair]; exact Nat.mod_eq_of_lt (by omega)
  have e2 : (moved s n sz new_data).size_capacity = n := by
    simp only [moved, size_capacity_pair]; exact Nat.mod_eq_of_lt (by omega)
  refine ⟨⟨?_, ?_⟩, ?_, ?_, rfl, rfl⟩
  · simp [moved, le_bytes_length, SMALL_CAPACITY]
  · show _ ∧ _ ∧ _
    rw [e1, e2]
    refine ⟨?_, hsz, h16⟩
    simp [List.length_take, List.length_drop, hnl]
    omega
  · show Except.ok (moved s n sz new_data).size_size = _
    rw [e1]
  · show (moved s n sz new_data).size_capacity = n
    exact e2

/-- What a successful `reserve` guarantees. -/
theorem reserve_ok_facts {alloc_ : Allocator} {n : Nat} {s t : SmallString}
    (h : Inv s) (hn : n < SIZE_MOD) (hr : s.reserve alloc_ n = .ok t) :
    Inv t ∧ n ≤ t.capacity ∧ s.capacity ≤ t.capacity ∧ t.size = s.size ∧
      (∀ sz, s.size = .ok sz → t.data.take sz = s.data.take sz) ∧
      (s.data_.isSome → t.data_.isSome) := by
  rcases reserve_ok_cases h hn hr with ⟨h1, rfl⟩ | ⟨h1, h16, hM, new_data, sz, hal, hsz, rfl⟩
  · exact ⟨h, h1, le_refl _, rfl, fun _ _ => rfl, id⟩
  · obtain ⟨sz', hsz', hcap, hlen⟩ := size_of_inv h
    rw [hsz] at hsz'
    cases hsz'
    obtain ⟨f1, f2, f3, f4, f5⟩ :=
      moved_facts (s := s) hM h16 (show sz ≤ n by omega) hlen (allocate_some hal)
    refine ⟨f1, by omega, by omega, by rw [f2, hsz], ?_, fun _ => by simp [f5]⟩
    intro sz2 hsz2
    rw [hsz] at hsz2
    cases hsz2
    rw [f4, List.take_append_eq_append_take]
    have htl : (s.data.take sz).length = sz := by simp; omega
    simp [htl]

/-! ## Assignment -/

theorem from_c_str_eq (alloc_ : Allocator) (string : List Byte) :
    from_c_str alloc_ string = default.operator_assign alloc_ string := rfl

theorem operator_assign_eq {alloc_ : Allocator} {string : List Byte} {len : Nat}
    {s s1 : SmallString} (hlen : traits_length string = .ok len)
    (hres : s.reserve alloc_ len = .ok s1) (hfit : len ≤ s1.data.length) :
    s.operator_assign alloc_ string = .ok (assigned s1 string len) := by
  have hl := (traits_length_ok hlen).1
  have hc : traits_copy s1.data string len = .ok (string.take len ++ s1.data.drop len) := by
    simp only [traits_copy]
    rw [if_pos ⟨hfit, by omega⟩]
  simp only [operator_assign, hlen, hres, bind, Except.bind, hc]
  cases hd : s1.data_ <;> simp [with_data, hd, assigned, data, pure, Except.pure, set_size_size]

theorem operator_assign_ok_cases {alloc_ : Allocator} {string : List Byte} {s t : SmallString}
    (h : Inv s) (hs : string.length ≤ SIZE_MOD) (hr : s.operator_assign alloc_ string = .ok t) :
    ∃ len s1, traits_length string = .ok len ∧ len < SIZE_MOD ∧ s.reserve alloc_ len = .ok s1 ∧
      t = assigned s1 string len := by
  cases hlen : traits_length string with
  | error e => simp [operator_assign, hlen, bind, Except.bind] at hr
  | ok len =>
    have hl := (traits_length_ok hlen).1
    have hM : len < SIZE_MOD := by omega
    cases hres : s.reserve alloc_ len with
    | error e => simp [operator_assign, hlen, hres, bind, Except.bind] at hr
    | ok s1 =>
      obtain ⟨f1, f2, -⟩ := reserve_ok_facts h hM hres
      obtain ⟨sz, -, hcap, hdl⟩ := size_of_inv f1
      have hfit : len ≤ s1.data.length := by
        cases hd : s1.data_ with
        | none =>
          have : s1.capacity = SMALL_CAPACITY - 1 := by simp [capacity, hd]
          have : s1.data.length = SMALL_CAPACITY := by simp [data, hd, f1.1]
          simp only [SMALL_CAPACITY] at *
          omega
        | some block =>
          have hm := f1.2
          rw [hd] at hm
          have : s1.capacity = s1.size_capacity := by simp [capacity, hd]
          have : s1.data.length = block.length := by simp [data, hd]
          omega
      rw [operator_assign_eq hlen hres hfit] at hr
      cases hr
      exact ⟨len, s1, rfl, hM, hres, rfl⟩

theorem assigned_none {s : SmallString} (string : List Byte) (len : Nat) (hd : s.data_ = none) :
    assigned s string len = ⟨none, string.take len ++ s.storage.drop len⟩ := by
  simp [assigned, hd]

theorem assigned_some {s : SmallString} (string : List Byte) (len : Nat) {block : List Byte}
    (hd : s.data_ = some block) :
    assigned s string len
      = ⟨some (string.take len ++ block.drop len), le_bytes len ++ s.storage.drop 8⟩ := by
  simp [assigned, hd]

theorem assigned_inv {s : SmallString} {string : List Byte} {len : Nat} (h : Inv s)
    (hl : len < string.length) (hM : len < SIZE_MOD) (hcap : len ≤ s.capacity) :
    Inv (assigned s string len) := by
  obtain ⟨h16, hm⟩ := h
  cases hd : s.data_ with
  | none =>
    rw [hd] at hm
    have hc : s.capacity = SMALL_CAPACITY - 1 := by simp [capacity, hd]
    simp only [SMALL_CAPACITY] at *
    have htl : (string.take len).length = len := by simp; omega
    rw [assigned_none string len hd]
    refine ⟨?_, ?_⟩
    · simp [h16, SMALL_CAPACITY]; omega
    · show (string.take len ++ s.storage.drop len)[SMALL_CAPACITY - 1]? = some 0
      simp only [SMALL_CAPACITY]
      rw [List.getElem?_append_right (by omega), htl, List.getElem?_drop]
      rw [show len + (2 * 8 - 1 - len) = 15 by omega]
      exact hm
  | some block =>
    rw [hd] at hm
    obtain ⟨h1, h2, h3⟩ := hm
    have hc : s.capacity = s.size_capacity := by simp [capacity, hd]
    rw [assigned_some string len hd]
    have e1 : size_size ⟨some (string.take len ++ block.drop len),
        le_bytes len ++ s.storage.drop 8⟩ = len := by
      simp only [size_size, List.take_append_eq_append_take, le_bytes_length]
      simp [le_value_le_bytes, List.take_of_length_le, le_bytes_length]
      exact Nat.mod_eq_of_lt hM
    have e2 : size_capacity ⟨some (string.take len ++ block.drop len),
        le_bytes len ++ s.storage.drop 8⟩ = s.size_capacity := by
      simp [size_capacity, List.drop_append_eq_append_drop, le_bytes_length]
    refine ⟨?_, ?_⟩
    · simp [h16, le_bytes_length, SMALL_CAPACITY]
    · show _ ∧ _ ∧ _
      rw [e1, e2]
      refine ⟨?_, by omega, h3⟩
      simp [List.length_take, List.length_drop, h1]
      omega

/-! ## `resize` -/

theorem store_ok {block : List Byte} {i : Nat} (v : Byte) (h : i < block.length) :
    store block i v = .ok (block.take i ++ v :: block.drop (i + 1)) := by
  simp only [store]
  rw [if_pos h, set_eq_take_cons_drop block i v h]

theorem store_fill (block : List Byte) (i stop : Nat) (c : Byte) (hi : i ≤ stop)
    (hs : stop < block.length) :
    store (block.take i ++ List.replicate (stop - i) c ++ block.drop stop) stop 0
      = .ok (block.take i ++ List.replicate (stop - i) c ++ 0 :: block.drop (stop + 1)) := by
  have hl : (block.take i ++ List.replicate (stop - i) c).length = stop := by
    simp [List.length_take]; omega
  simp only [store]
  rw [if_pos (by simp [List.length_take, List.length_drop]; omega)]
  congr 1
  rw [List.set_append_right _ _ (by omega), hl, Nat.sub_self,
    List.drop_eq_getElem_cons hs, List.set_cons_zero]

/-- The loop of `resize` followed by the store of the terminator. -/
theorem fill_then_store (continues : Nat → Bool) (stop : Nat) (c : Byte)
    (hlt : ∀ j, j < stop → continues j = true) (hstop : continues stop = false)
    (block : List Byte) (i : Nat) (hi : i ≤ stop) (hs : stop < block.length) :
    ∃ filled, construct_loop continues c (block.length + 1) i block = .ok filled ∧
      filled.length = block.length ∧
      store filled stop 0
        = .ok (block.take i ++ List.replicate (stop - i) c ++ 0 :: block.drop (stop + 1)) := by
  refine ⟨_, construct_loop_fill continues stop c hlt hstop _ i block hi (by omega) (by omega),
    ?_, store_fill block i stop c hi hs⟩
  simp [List.length_take, List.length_drop]
  omega

theorem resize_heap_shrink (alloc_ : Allocator) {n : Nat} (c : Byte) {s : SmallString}
    {block : List Byte} (hd : s.data_ = some block) (hn : n ≤ s.size_size)
    (hb : n < block.length) :
    s.resize alloc_ n c
      = .ok ⟨some (block.take n ++ 0 :: block.drop (n + 1)), le_bytes n ++ s.storage.drop 8⟩ := by
  have h1 : ¬ n > s.size_size := by omega
  simp only [resize, hd, h1, if_false, store_ok 0 hb, bind, Except.bind, pure, Except.pure,
    set_size_size]

theorem resize_heap_grow {alloc_ : Allocator} {n : Nat} (c : Byte) {s s1 : SmallString}
    {block block1 : List Byte} (hd : s.data_ = some block) (hn : s.size_size < n)
    (hres : s.reserve alloc_ n = .ok s1) (hd1 : s1.data_ = some block1)
    (hsz : s1.size_size = s.size_size) (hb : n < block1.length) :
    s.resize alloc_ n c = .ok (grown s1 (s.size_size + 1) n c) := by
  have hdata : s1.data = block1 := by simp [data, hd1]
  obtain ⟨filled, hf, hfl, hst⟩ := fill_then_store (fun i => decide (i < n)) n c
    (fun j hj => by simpa using hj) (by simp) block1 (s.size_size + 1) (by omega) hb
  have hsize : s1.size = .ok s.size_size := by simp [size, hd1, hsz]
  simp only [resize, hd, gt_iff_lt, hn, if_true, hres, bind, Except.bind, hsize, hdata, hf,
    with_data, hd1, hst, pure, Except.pure, set_size_size, grown]

theorem resize_inline_shrink (alloc_ : Allocator) {n L : Nat} (c : Byte) {s : SmallString}
    (hd : s.data_ = none) (hL : s.small_size = .ok L) (hn : n ≤ L) (hb : n < s.storage.length) :
    s.resize alloc_ n c = .ok ⟨none, s.storage.take n ++ 0 :: s.storage.drop (n + 1)⟩ := by
  have h1 : ¬ n > L := by omega
  simp only [resize, hd, hL, h1, if_false, store_ok 0 hb, bind, Except.bind, pure, Except.pure]

theorem resize_inline_grow (alloc_ : Allocator) {n L : Nat} (c : Byte) {s : SmallString}
    (hd : s.data_ = none) (hL : s.small_size = .ok L) (hn : L < n) (h15 : n < SMALL_CAPACITY)
    (h16 : s.storage.length = SMALL_CAPACITY) :
    s.resize alloc_ n c
      = .ok ⟨none, s.storage.take L ++ List.replicate (n - L) c ++ 0 :: s.storage.drop (n + 1)⟩ := by
  have hcap : n ≤ s.capacity := by simp only [capacity, hd]; omega
  obtain ⟨filled, hf, hfl, hst⟩ := fill_then_store (fun i => decide (i ≠ n)) n c
    (fun j hj => by simp; omega) (by simp) s.storage L (by omega) (by omega)
  have hsize : s.size = .ok L := by simp [size, hd, hL]
  have hdata : s.data = s.storage := by simp [data, hd]
  have h2 : ¬ n > SMALL_CAPACITY := by omega
  simp only [resize, hd, hL, gt_iff_lt, hn, if_true, reserve_of_le alloc_ hcap, bind,
    Except.bind, hsize, hdata, hf, with_data, h2, if_false, hst, pure, Except.pure]

theorem resize_inline_to_heap {alloc_ : Allocator} {n L : Nat} (c : Byte) {s s1 : SmallString}
    {block1 : List Byte} (hd : s.data_ = none) (hL : s.small_size = .ok L) (hn : L < n)
    (h16 : SMALL_CAPACITY < n) (hres : s.reserve alloc_ n = .ok s1)
    (hd1 : s1.data_ = some block1) (hsz : s1.size_size = L) (hb : n < block1.length) :
    s.resize alloc_ n c = .ok (grown s1 L n c) := by
  have hdata : s1.data = block1 := by simp [data, hd1]
  obtain ⟨filled, hf, hfl, hst⟩ := fill_then_store (fun i => decide (i ≠ n)) n c
    (fun j hj => by simp; omega) (by simp) block1 L (by omega) hb
  have hsize : s1.size = .ok L := by simp [size, hd1, hsz]
  simp only [resize, hd, hL, gt_iff_lt, hn, if_true, hres, bind, Except.bind, hsize, hdata, hf,
    with_data, hd1, h16, hst, pure, Except.pure, set_size_size, grown]

/-- The five ways a `resize` can succeed. -/
theorem resize_ok_cases {alloc_ : Allocator} {n : Nat} {c : Byte} {s t : SmallString}
    (h : Inv s) (hn : n < SIZE_MOD) (hr : s.resize alloc_ n c = .ok t) :
    (∃ block, s.data_ = some block ∧ n ≤ s.size_size ∧ n < block.length ∧
      t = ⟨some (block.take n ++ 0 :: block.drop (n + 1)), le_bytes n ++ s.storage.drop 8⟩) ∨
    (∃ block s1 block1, s.data_ = some block ∧ s.size_size < n ∧ s.reserve alloc_ n = .ok s1 ∧
      s1.data_ = some block1 ∧ n < block1.length ∧ t = grown s1 (s.size_size + 1) n c) ∨
    (∃ L, s.data_ = none ∧ s.small_size = .ok L ∧ n ≤ L ∧ L < SMALL_CAPACITY ∧
      t = ⟨none, s.storage.take n ++ 0 :: s.storage.drop (n + 1)⟩) ∨
    (∃ L, s.data_ = none ∧ s.small_size = .ok L ∧ L < n ∧ n < SMALL_CAPACITY ∧
      t = ⟨none, s.storage.take L ++ List.replicate (n - L) c ++ 0 :: s.storage.drop (n + 1)⟩) ∨
    (∃ L s1 block1, s.data_ = none ∧ s.small_size = .ok L ∧ L < SMALL_CAPACITY ∧
      SMALL_CAPACITY < n ∧ s.reserve alloc_ n = .ok s1 ∧ s1.data_ = some block1 ∧
      n < block1.length ∧ t = grown s1 L n c) := by
  obtain ⟨sz, hsz, hcap, hlen⟩ := size_of_inv h
  cases hd : s.data_ with
  | some block =>
    have hm := h.2
    rw [hd] at hm
    obtain ⟨m1, m2, m3⟩ := hm
    by_cases h1 : n ≤ s.size_size
    · left
      have hb : n < block.length := by omega
      rw [resize_heap_shrink alloc_ c hd h1 hb] at hr
      cases hr
      exact ⟨block, rfl, h1, hb, rfl⟩
    · right; left
      cases hres : s.reserve alloc_ n with
      | error e =>
        simp [resize, hd, not_le.mp h1, hres, bind, Except.bind] at hr
      | ok s1 =>
        obtain ⟨f1, f2, f3, f4, f5, f6⟩ := reserve_ok_facts h hn hres
        obtain ⟨block1, hd1⟩ := Option.isSome_iff_exists.mp (f6 (by simp [hd]))
        have hm1 := f1.2
        rw [hd1] at hm1
        have hc1 : s1.capacity = s1.size_capacity := by simp [capacity, hd1]
        have hb : n < block1.length := by omega
        have hs1 : s1.size_size = s.size_size := by
          simpa [size, hd, hd1] using f4
        rw [resize_heap_grow c hd (not_le.mp h1) hres hd1 hs1 hb] at hr
        cases hr
        exact ⟨block, s1, block1, rfl, not_le.mp h1, rfl, hd1, hb, rfl⟩
  | none =>
    have hL : s.small_size = .ok sz := by simpa [size, hd] using hsz
    have hc : s.capacity = SMALL_CAPACITY - 1 := by simp [capacity, hd]
    have hsl : s.data.length = SMALL_CAPACITY := by simp [data, hd, h.1]
    have hL16 : sz < SMALL_CAPACITY := by omega
    right; right
    by_cases h1 : n ≤ sz
    · left
      have hb : n < s.storage.length := by rw [h.1]; omega
      rw [resize_inline_shrink alloc_ c hd hL h1 hb] at hr
      cases hr
      exact ⟨sz, rfl, hL, h1, hL16, rfl⟩
    · right
      by_cases h2 : n < SMALL_CAPACITY
      · left
        rw [resize_inline_grow alloc_ c hd hL (not_le.mp h1) h2 h.1] at hr
        cases hr
        exact ⟨sz, rfl, hL, not_le.mp h1, h2, rfl⟩
      · right
        cases hres : s.reserve alloc_ n with
        | error e =>
          simp [resize, hd, hL, not_le.mp h1, hres, bind, Except.bind] at hr
        | ok s1 =>
          obtain ⟨f1, f2, f3, f4, f5, f6⟩ := reserve_ok_facts h hn hres
          rcases reserve_ok_cases h hn hres with ⟨g1, -⟩ | ⟨g1, g16, gM, nd, sz2, hal, hsz2, rfl⟩
          · simp only [SMALL_CAPACITY] at *; omega
          · rw [hsz] at hsz2
            cases hsz2
            obtain ⟨k1, k2, k3, k4, k5⟩ :=
              moved_facts (s := s) gM g16 (show sz ≤ n by omega) hlen (allocate_some hal)
            have hm1 := k1.2
            rw [k5] at hm1
            have hc1 : (moved s n sz nd).capacity = (moved s n sz nd).size_capacity := by
              simp [capacity, k5]
            have hs1 : (moved s n sz nd).size_size = sz := by
              simpa [size, k5] using k2
            have hb : n < (s.data.take sz ++ 0 :: nd.drop (sz + 1)).length := by omega
            rw [resize_inline_to_heap c hd hL (not_le.mp h1) g16 hres k5 hs1 hb] at hr
            cases hr
            exact ⟨sz, _, _, rfl, hL, hL16, g16, rfl, k5, hb, rfl⟩

theorem size_size_mk (d : Option (List Byte)) (st : List Byte) (n : Nat) :
    size_size ⟨d, le_bytes n ++ st.drop 8⟩ = n % SIZE_MOD :=
  size_size_set_size_size ⟨d, st⟩ n

theorem size_capacity_mk (d d1 : Option (List Byte)) (st : List Byte) (n : Nat) :
    size_capacity ⟨d, le_bytes n ++ st.drop 8⟩ = size_capacity ⟨d1, st⟩ :=
  size_capacity_set_size_size ⟨d, st⟩ n

/-- A heap state whose size field has just been set to `n`. -/
theorem inv_heap_mk {block st : List Byte} {n : Nat} (hst : st.length = SMALL_CAPACITY)
    (hn : n < SIZE_MOD) (hb : block.length = size_capacity ⟨none, st⟩ + 1)
    (hle : n ≤ size_capacity ⟨none, st⟩) (h16 : SMALL_CAPACITY < size_capacity ⟨none, st⟩) :
    Inv ⟨some block, le_bytes n ++ st.drop 8⟩ := by
  refine ⟨?_, ?_⟩
  · simp only [SMALL_CAPACITY] at hst
    simp [le_bytes_length, hst, SMALL_CAPACITY]
  · show _ ∧ _ ∧ _
    rw [size_size_mk, size_capacity_mk _ none, Nat.mod_eq_of_lt hn]
    exact ⟨hb, hle, h16⟩

theorem grown_inv {s : SmallString} {block : List Byte} {first n : Nat} (c : Byte)
    (h : Inv s) (hd : s.data_ = some block) (hf : first ≤ n) (hb : n < block.length) :
    Inv (grown s first n c) := by
  have hm := h.2
  rw [hd] at hm
  obtain ⟨m1, m2, m3⟩ := hm
  have hdata : s.data = block := by simp [data, hd]
  have hcl := size_capacity_lt s
  have e : size_capacity ⟨none, s.storage⟩ = s.size_capacity := rfl
  simp only [grown, hdata]
  apply inv_heap_mk h.1 (by omega)
  · rw [e]
    simp [List.length_take, List.length_drop]
    omega
  · rw [e]; omega
  · rw [e]; exact m3

theorem inline_terminated {st : List Byte} {k : Nat} (front : List Byte)
    (hst : st.length = SMALL_CAPACITY) (h15 : st[SMALL_CAPACITY - 1]? = some 0)
    (hk : k < SMALL_CAPACITY) (hf : front.length = k) :
    Inv ⟨none, front ++ 0 :: st.drop (k + 1)⟩ := by
  simp only [SMALL_CAPACITY] at *
  refine ⟨?_, ?_⟩
  · simp [hf, hst, SMALL_CAPACITY]; omega
  · show (front ++ 0 :: st.drop (k + 1))[SMALL_CAPACITY - 1]? = some 0
    simp only [SMALL_CAPACITY]
    rw [List.getElem?_append_right (by omega), hf]
    rcases Nat.eq_or_lt_of_le (Nat.le_of_lt_succ hk) with rfl | hlt
    · simp
    · obtain ⟨d, hd⟩ : ∃ d, 2 * 8 - 1 - k = d + 1 := ⟨2 * 8 - 1 - k - 1, by omega⟩
      rw [hd, List.getElem?_cons_succ, List.getElem?_drop]
      rw [show k + 1 + d = 15 by omega]
      exact h15

theorem resize_inv {alloc_ : Allocator} {n : Nat} {c : Byte} {s t : SmallString}
    (h : Inv s) (hn : n < SIZE_MOD) (hr : s.resize alloc_ n c = .ok t) : Inv t := by
  rcases resize_ok_cases h hn hr with ⟨block, hd, h1, hb, rfl⟩ |
    ⟨block, s1, block1, hd, h1, hres, hd1, hb, rfl⟩ | ⟨L, hd, hL, h1, hL16, rfl⟩ |
    ⟨L, hd, hL, h1, h2, rfl⟩ | ⟨L, s1, block1, hd, hL, hL16, h16, hres, hd1, hb, rfl⟩
  · have hm := h.2
    rw [hd] at hm
    obtain ⟨m1, m2, m3⟩ := hm
    apply inv_heap_mk h.1 hn
    · show _ = s.size_capacity + 1
      simp [List.length_take, List.length_drop]
      omega
    · show n ≤ s.size_capacity
      omega
    · exact m3
  · exact grown_inv c (reserve_ok_facts h hn hres).1 hd1 (by omega) hb
  · have hm := h.2
    rw [hd] at hm
    exact inline_terminated _ h.1 hm (by omega) (by simp [h.1]; omega)
  · have hm := h.2
    rw [hd] at hm
    have := inline_terminated (s.storage.take L ++ List.replicate (n - L) c) h.1 hm h2
      (by simp [h.1]; omega)
    simpa using this
  · exact grown_inv c (reserve_ok_facts h hn hres).1 hd1 (by omega) hb

/-! ## `clear`, and the invariant on every reachable instance -/

theorem clear_eq_default {s : SmallString} (h : s.storage.length = SMALL_CAPACITY) :
    s.clear = default := by
  simp only [SMALL_CAPACITY] at h
  have hp := storage_set_pair s 0 0 h
  have hdd : ∀ u : SmallString, u.deallocate = ⟨none, u.storage⟩ := by
    intro u
    rcases u with ⟨d, st⟩
    cases d <;> rfl
  simp only [clear, hdd, hp, default]

theorem operator_assign_inv {alloc_ : Allocator} {string : List Byte} {s t : SmallString}
    (h : Inv s) (hs : string.length ≤ SIZE_MOD) (hr : s.operator_assign alloc_ string = .ok t) :
    Inv t := by
  obtain ⟨len, s1, hlen, hM, hres, rfl⟩ := operator_assign_ok_cases h hs hr
  obtain ⟨f1, f2, -⟩ := reserve_ok_facts h hM hres
  exact assigned_inv f1 (traits_length_ok hlen).1 hM f2

theorem reachable_inv {s : SmallString} (h : Reachable s) : Inv s := by
  induction h with
  | default => exact inv_default
  | from_c_str alloc_ string t hs hr =>
    rw [from_c_str_eq] at hr
    exact operator_assign_inv inv_default hs hr
  | operator_assign alloc_ string s t _ hs hr ih => exact operator_assign_inv ih hs hr
  | reserve alloc_ n s t _ hn hr ih => exact (reserve_ok_facts ih hn hr).1
  | resize alloc_ n c s t _ hn hr ih => exact resize_inv ih hn hr
  | clear s _ ih =>
    rw [clear_eq_default ih.1]
    exact inv_default

/-! ## Comparison -/

theorem char_traits_compare_same (front xs ys : List Byte) :
    char_traits_compare (front ++ xs) (front ++ ys) front.length = 0 := by
  induction front with
  | nil => simp [char_traits_compare]
  | cons b front ih => simp [char_traits_compare, ih]

theorem static_cast_int_zero : static_cast_int 0 = 0 := by decide

/-- An instance whose first `size()` bytes are those of a null-terminated sequence
compares equal to it. -/
theorem operator_eq_of_content {s : SmallString} {bytes rest : List Byte} (hz : 0 ∉ bytes)
    (hsz : s.size = .ok bytes.length) (hd : s.data = bytes ++ rest) :
    s.operator_eq (c_str bytes) = .ok true := by
  have hlen : traits_length (c_str bytes) = .ok bytes.length :=
    traits_length_append bytes [] (fun b hb hb0 => hz (hb0 ▸ hb))
  have hc : char_traits_compare (bytes ++ rest) (c_str bytes) bytes.length = 0 :=
    char_traits_compare_same bytes rest [0]
  have hM : (bytes.length + SIZE_MOD - bytes.length) % SIZE_MOD = 0 := by
    rw [Nat.add_sub_cancel_left]; exact Nat.mod_self _
  simp [operator_eq, compare, compare_with, hlen, hsz, hd, hc, hM, bind, Except.bind, pure,
    Except.pure, static_cast_int_zero]

/-! ## Successful operations: sizes, contents, totality -/

theorem size_heap_mk (block st : List Byte) {n : Nat} (hn : n < SIZE_MOD) :
    size ⟨some block, le_bytes n ++ st.drop 8⟩ = .ok n := by
  show Except.ok (size_size ⟨some block, le_bytes n ++ st.drop 8⟩) = _
  rw [size_size_mk, Nat.mod_eq_of_lt hn]

theorem size_grown (s : SmallString) (first : Nat) (c : Byte) {n : Nat} (hn : n < SIZE_MOD) :
    (grown s first n c).size = .ok n :=
  size_heap_mk _ _ hn

theorem size_inline_mk (front rest : List Byte) (hz : ∀ b ∈ front, b ≠ 0) :
    size ⟨none, front ++ 0 :: rest⟩ = .ok front.length :=
  traits_length_append front rest hz

/-- A `resize` within the current capacity always succeeds. -/
theorem resize_total_of_le (alloc_ : Allocator) {n : Nat} (c : Byte) {s : SmallString}
    (h : Inv s) (hcap : n ≤ s.capacity) : ∃ t, s.resize alloc_ n c = .ok t := by
  obtain ⟨sz, hsz, hszc, hlen⟩ := size_of_inv h
  cases hd : s.data_ with
  | some block =>
    have hm := h.2
    rw [hd] at hm
    obtain ⟨m1, m2, m3⟩ := hm
    have hc : s.capacity = s.size_capacity := by simp [capacity, hd]
    have hb : n < block.length := by omega
    by_cases h1 : n ≤ s.size_size
    · exact ⟨_, resize_heap_shrink alloc_ c hd h1 hb⟩
    · exact ⟨_, resize_heap_grow c hd (not_le.mp h1) (reserve_of_le alloc_ hcap) hd rfl hb⟩
  | none =>
    have hL : s.small_size = .ok sz := by simpa [size, hd] using hsz
    have hc : s.capacity = SMALL_CAPACITY - 1 := by simp [capacity, hd]
    have h15 : n < SMALL_CAPACITY := by simp only [SMALL_CAPACITY] at *; omega
    by_cases h1 : n ≤ sz
    · exact ⟨_, resize_inline_shrink alloc_ c hd hL h1 (by rw [h.1]; exact h15)⟩
    · exact ⟨_, resize_inline_grow alloc_ c hd hL (not_le.mp h1) h15 h.1⟩

theorem take_no_zero {st : List Byte} {L n : Nat} (hL : traits_length st = .ok L) (hn : n ≤ L) :
    (∀ b ∈ st.take n, b ≠ 0) ∧ (st.take n).length = n := by
  obtain ⟨h1, h2, -⟩ := traits_length_ok hL
  refine ⟨fun b hb => h2 b ?_, by simp; omega⟩
  exact (List.take_subset_take_left st hn) hb

/-- The value of `size()` after a successful `resize`. -/
theorem resize_size {alloc_ : Allocator} {n L : Nat} {c : Byte} {s t : SmallString}
    (h : Inv s) (hn : n < SIZE_MOD) (hL : s.size = .ok L) (hr : s.resize alloc_ n c = .ok t) :
    t.size = .ok (if s.data_ = none ∧ c = 0 ∧ L < n ∧ n < SMALL_CAPACITY then L else n) := by
  rcases resize_ok_cases h hn hr with ⟨block, hd, h1, hb, rfl⟩ |
    ⟨block, s1, block1, hd, h1, hres, hd1, hb, rfl⟩ | ⟨L1, hd, hL1, h1, hL16, rfl⟩ |
    ⟨L1, hd, hL1, h1, h2, rfl⟩ | ⟨L1, s1, block1, hd, hL1, hL16, h16, hres, hd1, hb, rfl⟩
  · rw [if_neg (by simp [hd]), size_heap_mk _ _ hn]
  · rw [if_neg (by simp [hd]), size_grown _ _ _ hn]
  · have e : L1 = L := by
      have : s.size = .ok L1 := by simpa [size, hd] using hL1
      rw [hL] at this
      cases this
      rfl
    subst e
    rw [if_neg (by omega)]
    obtain ⟨z, l⟩ := take_no_zero hL1 h1
    have := size_inline_mk _ (s.storage.drop (n + 1)) z
    rw [l] at this
    exact this
  · have e : L1 = L := by
      have : s.size = .ok L1 := by simpa [size, hd] using hL1
      rw [hL] at this
      cases this
      rfl
    subst e
    obtain ⟨z, l⟩ := take_no_zero hL1 (le_refl L1)
    by_cases hc : c = 0
    · rw [if_pos ⟨hd, hc, h1, h2⟩]
      subst hc
      obtain ⟨d, hd2⟩ : ∃ d, n - L1 = d + 1 := ⟨n - L1 - 1, by omega⟩
      have := size_inline_mk _ (List.replicate d 0 ++ 0 :: s.storage.drop (n + 1)) z
      rw [l] at this
      rw [hd2, List.replicate_succ]
      simpa using this
    · rw [if_neg (by simp [hc])]
      have z2 : ∀ b ∈ s.storage.take L1 ++ List.replicate (n - L1) c, b ≠ 0 := by
        intro b hb
        rcases List.mem_append.mp hb with hb | hb
        · exact z b hb
        · rw [(List.mem_replicate.mp hb).2]; exact hc
      have := size_inline_mk _ (s.storage.drop (n + 1)) z2
      rw [List.length_append, l, List.length_replicate, show L1 + (n - L1) = n by omega] at this
      simpa using this
  · rw [if_neg (by omega), size_grown _ _ _ hn]

theorem content_eq {s : SmallString} {L : Nat} (hL : s.size = .ok L) (hfit : L ≤ s.data.length) :
    s.content = .ok (s.data.take L) := by
  simp [content, hL, hfit, bind, Except.bind, pure, Except.pure]

theorem content_of_inv {s : SmallString} {L : Nat} (h : Inv s) (hL : s.size = .ok L) :
    s.content = .ok (s.data.take L) := by
  obtain ⟨sz, hsz, -, hlen⟩ := size_of_inv h
  rw [hL] at hsz
  cases hsz
  exact content_eq hL (by omega)

theorem capacity_lt (s : SmallString) : s.capacity < SIZE_MOD := by
  cases hd : s.data_ with
  | none => simp [capacity, hd, SMALL_CAPACITY, SIZE_MOD]
  | some block =>
    have := size_capacity_lt s
    simpa [capacity, hd] using this

theorem allocate_of_not_refused {alloc_ : Allocator} {n : Nat} (h : alloc_.refuses n = false) :
    ∃ block, alloc_.allocate n = some block := by
  simp [Allocator.allocate, h]

/-- A `reserve` above `SMALL_CAPACITY` succeeds when the allocator grants the block. -/
theorem reserve_total {alloc_ : Allocator} {n : Nat} {s : SmallString} (h : Inv s)
    (h16 : SMALL_CAPACITY < n) (hM : n + 1 < SIZE_MOD) (hal : alloc_.refuses (n + 1) = false) :
    ∃ t, s.reserve alloc_ n = .ok t := by
  by_cases hcap : n ≤ s.capacity
  · exact ⟨s, reserve_of_le alloc_ hcap⟩
  · obtain ⟨sz, hsz, -⟩ := size_of_inv h
    obtain ⟨block, hb⟩ := allocate_of_not_refused hal
    exact ⟨_, reserve_grow h (not_le.mp hcap) h16 hM hb hsz⟩

/-! ## The object left behind, comparison, and further facts on `resize` -/

/-- The two renderings of `reserve` agree. -/
theorem result_reserve_in_place (alloc_ : Allocator) (n : Nat) (s : SmallString) :
    result (s.reserve_in_place alloc_ n) = s.reserve alloc_ n := by
  unfold reserve_in_place reserve
  split
  · rfl
  · split
    · cases alloc_.allocate ((n + 1) % SIZE_MOD) with
      | none => rfl
      | some new_data =>
        simp only [bind, Except.bind, pure, Except.pure]
        cases s.size with
        | error e => rfl
        | ok current_size =>
          simp only []
          cases traits_copy new_data s.data current_size with
          | error e => rfl
          | ok copied =>
            simp only []
            cases store copied current_size 0 with
            | error e => rfl
            | ok stored => rfl
    · cases hd : s.data_ with
      | none =>
        simp only [bind, Except.bind, pure, Except.pure]
        cases store s.storage n 0 with
        | error e => rfl
        | ok st => rfl
      | some block => rfl

theorem result_ok (s : SmallString) : result (s, none) = .ok s := rfl

theorem result_error (s : SmallString) (e : Fault) : result (s, some e) = .error e := rfl

/-- The two renderings of `operator=` agree. -/
theorem result_operator_assign_in_place (alloc_ : Allocator) (string : List Byte)
    (s : SmallString) :
    result (s.operator_assign_in_place alloc_ string) = s.operator_assign alloc_ string := by
  unfold operator_assign_in_place operator_assign
  simp only [← result_reserve_in_place]
  cases traits_length string with
  | error e => rfl
  | ok len =>
    simp only [bind, Except.bind, pure, Except.pure]
    rcases s.reserve_in_place alloc_ len with ⟨s1, _ | e⟩
    · simp only [result_ok]
      cases traits_copy s1.data string len with
      | error e => rfl
      | ok block =>
        simp only []
        cases hd : (s1.with_data block).data_ <;> rfl
    · rfl

theorem result_terminate_in_place (n : Nat) (s : SmallString) :
    result (terminate_in_place n s)
      = match s.data_ with
        | none => .error .undefined
        | some block =>
          match store block n 0 with
          | .error e => .error e
          | .ok block => .ok (set_size_size { s with data_ := some block } n) := by
  unfold terminate_in_place
  cases hd : s.data_ with
  | none => rfl
  | some block =>
    simp only []
    cases store block n 0 with
    | error e => rfl
    | ok stored => rfl

/-- The two renderings of `resize` agree. -/
theorem result_resize_in_place (alloc_ : Allocator) (n : Nat) (c : Byte) (s : SmallString) :
    result (s.resize_in_place alloc_ n c) = s.resize alloc_ n c := by
  unfold resize_in_place resize
  simp only [← result_reserve_in_place]
  cases hd : s.data_ with
  | some block =>
    simp only []
    split
    · simp only [bind, Except.bind, pure, Except.pure]
      rcases s.reserve_in_place alloc_ n with ⟨s1, _ | e⟩
      · simp only [result_ok]
        cases s1.size with
        | error e => rfl
        | ok end_ =>
          simp only []
          cases construct_loop (fun i => decide (i < n)) c (s1.data.length + 1) (end_ + 1)
            s1.data with
          | error e => rfl
          | ok filled =>
            simp only [result_terminate_in_place]
            cases (s1.with_data filled).data_ with
            | none => rfl
            | some b =>
              simp only []
              cases store b n 0 <;> rfl
      · rfl
    · simp only [result_terminate_in_place, hd, bind, Except.bind, pure, Except.pure]
      cases store block n 0 <;> rfl
  | none =>
    simp only [bind, Except.bind, pure, Except.pure]
    cases s.small_size with
    | error e => rfl
    | ok L =>
      simp only []
      split
      · rcases s.reserve_in_place alloc_ n with ⟨s1, _ | e⟩
        · simp only [result_ok]
          cases s1.size with
          | error e => rfl
          | ok end_ =>
            simp only []
            cases construct_loop (fun i => decide (i ≠ n)) c (s1.data.length + 1) end_
              s1.data with
            | error e => rfl
            | ok filled =>
              simp only []
              split
              · simp only [result_terminate_in_place]
                cases (s1.with_data filled).data_ with
                | none => rfl
                | some b =>
                  simp only []
                  cases store b n 0 <;> rfl
              · cases store (s1.with_data filled).storage n 0 <;> rfl
        · rfl
      · cases store s.storage n 0 <;> rfl

/-! ### Where `std::bad_alloc` can come from -/

theorem store_error {block : List Byte} {i : Nat} {v : Byte} {e : Fault}
    (h : store block i v = .error e) : e = .undefined := by
  unfold store at h
  split at h
  · cases h
  · cases h; rfl

theorem traits_copy_error {dst src : List Byte} {n : Nat} {e : Fault}
    (h : traits_copy dst src n = .error e) : e = .undefined := by
  unfold traits_copy at h
  split at h
  · cases h
  · cases h; rfl

theorem traits_length_error {m : List Byte} {e : Fault} (h : traits_length m = .error e) :
    e = .undefined := by
  induction m with
  | nil => simp [traits_length] at h; exact h.symm
  | cons b rest ih =>
    unfold traits_length at h
    split at h
    · cases h
    · cases hr : traits_length rest with
      | ok k => rw [hr] at h; cases h
      | error e1 =>
        rw [hr] at h
        cases h
        exact ih hr

theorem size_error {s : SmallString} {e : Fault} (h : s.size = .error e) : e = .undefined := by
  unfold size at h
  split at h
  · exact traits_length_error h
  · cases h

theorem construct_loop_error (continues : Nat → Bool) (c : Byte) {e : Fault} :
    ∀ (fuel i : Nat) (block : List Byte),
      construct_loop continues c fuel i block = .error e → e = .undefined := by
  intro fuel
  induction fuel with
  | zero =>
    intro i block h
    simp [construct_loop] at h
    exact h.symm
  | succ fuel ih =>
    intro i block h
    unfold construct_loop at h
    split at h
    · cases hs : store block i c with
      | ok stored => rw [hs] at h; exact ih _ _ h
      | error e1 =>
        rw [hs] at h
        cases h
        exact store_error hs
    · cases h

theorem terminate_in_place_error {n : Nat} {s t : SmallString} {e : Fault}
    (h : terminate_in_place n s = (t, some e)) : e = .undefined := by
  unfold terminate_in_place at h
  split at h
  · cases h; rfl
  · split at h
    · rename_i hs
      cases h
      exact store_error hs
    · cases h

/-- When `reserve` ends on `std::bad_alloc` the object is as it was. -/
theorem reserve_in_place_bad_alloc {alloc_ : Allocator} {n : Nat} {s t : SmallString}
    (h : s.reserve_in_place alloc_ n = (t, some .bad_alloc)) : t = s := by
  unfold reserve_in_place at h
  split at h
  · cases h
  · split at h
    · split at h
      · cases h; rfl
      · split at h
        · cases h; rfl
        · split at h
          · cases h; rfl
          · split at h
            · rename_i hs
              cases h
              cases store_error hs
            · cases h
    · split at h
      · split at h
        · cases h; rfl
        · cases h
      · cases h

/-- When `operator=` ends on `std::bad_alloc` the object is as it was. -/
theorem operator_assign_in_place_bad_alloc {alloc_ : Allocator} {string : List Byte}
    {s t : SmallString} (h : s.operator_assign_in_place alloc_ string = (t, some .bad_alloc)) :
    t = s := by
  unfold operator_assign_in_place at h
  split at h
  · cases h; rfl
  · split at h
    · rename_i hr
      cases h
      exact reserve_in_place_bad_alloc hr
    · split at h
      · rename_i hc
        cases h
        cases traits_copy_error hc
      · dsimp only at h
        split at h <;> cases h

/-- When `resize` ends on `std::bad_alloc` the object is as it was. -/
theorem resize_in_place_bad_alloc {alloc_ : Allocator} {n : Nat} {c : Byte}
    {s t : SmallString} (h : s.resize_in_place alloc_ n c = (t, some .bad_alloc)) : t = s := by
  unfold resize_in_place at h
  split at h
  · split at h
    · split at h
      · rename_i hr
        cases h
        exact reserve_in_place_bad_alloc hr
      · split at h
        · rename_i hs
          cases h
          cases size_error hs
        · split at h
          · rename_i hl
            cases h
            cases construct_loop_error _ _ _ _ _ hl
          · cases terminate_in_place_error h
    · cases terminate_in_place_error h
  · split at h
    · cases h; rfl
    · split at h
      · split at h
        · rename_i hr
          cases h
          exact reserve_in_place_bad_alloc hr
        · split at h
          · rename_i hs
            cases h
            cases size_error hs
          · split at h
            · rename_i hl
              cases h
              cases construct_loop_error _ _ _ _ _ hl
            · split at h
              · cases terminate_in_place_error h
              · dsimp only at h
                split at h
                · rename_i hs
                  cases h
                  cases store_error hs
                · cases h
      · split at h
        · rename_i hs
          cases h
          cases store_error hs
        · cases h

theorem reserve_in_place_refused {alloc_ : Allocator} {n : Nat} {s : SmallString}
    (hcap : s.capacity < n) (h16 : SMALL_CAPACITY < n)
    (hal : alloc_.allocate ((n + 1) % SIZE_MOD) = none) :
    s.reserve_in_place alloc_ n = (s, some .bad_alloc) := by
  simp [reserve_in_place, not_le.mpr hcap, h16, hal]

theorem resize_in_place_refused {alloc_ : Allocator} {n : Nat} (c : Byte) {s : SmallString}
    (h : Inv s) (hcap : s.capacity < n) (h16 : SMALL_CAPACITY < n)
    (hal : alloc_.allocate ((n + 1) % SIZE_MOD) = none) :
    s.resize_in_place alloc_ n c = (s, some .bad_alloc) := by
  obtain ⟨sz, hsz, hszc, -⟩ := size_of_inv h
  have hr := reserve_in_place_refused hcap h16 hal
  cases hd : s.data_ with
  | some block =>
    have hs : s.size_size = sz := by simpa [size, hd] using hsz
    have hlt : s.size_size < n := by omega
    simp [resize_in_place, hd, hlt, hr]
  | none =>
    have hL : s.small_size = .ok sz := by simpa [size, hd] using hsz
    have hlt : sz < n := by omega
    simp [resize_in_place, hd, hL, hlt, hr]

theorem operator_assign_in_place_refused {alloc_ : Allocator} {n : Nat} {string : List Byte}
    {s : SmallString} (hlen : traits_length string = .ok n) (hcap : s.capacity < n)
    (h16 : SMALL_CAPACITY < n) (hal : alloc_.allocate ((n + 1) % SIZE_MOD) = none) :
    s.operator_assign_in_place alloc_ string = (s, some .bad_alloc) := by
  simp [operator_assign_in_place, hlen, reserve_in_place_refused hcap h16 hal]

/-- A growing `resize` above `SMALL_CAPACITY` succeeds when the allocator grants the
block. -/
theorem resize_total {alloc_ : Allocator} {n : Nat} (c : Byte) {s : SmallString} (h : Inv s)
    (h16 : SMALL_CAPACITY < n) (hM : n + 1 < SIZE_MOD) (hal : alloc_.refuses (n + 1) = false) :
    ∃ t, s.resize alloc_ n c = .ok t := by
  by_cases hcap : n ≤ s.capacity
  · exact resize_total_of_le alloc_ c h hcap
  · have hn : n < SIZE_MOD := by omega
    obtain ⟨sz, hsz, hszc, hlen⟩ := size_of_inv h
    obtain ⟨s1, hres⟩ := reserve_total h h16 hM hal
    obtain ⟨f1, f2, f3, f4, f5, f6⟩ := reserve_ok_facts h hn hres
    rcases reserve_ok_cases h hn hres with ⟨g1, -⟩ | ⟨g1, g16, gM, nd, sz2, hal2, hsz2, rfl⟩
    · omega
    · rw [hsz] at hsz2
      cases hsz2
      obtain ⟨k1, k2, k3, k4, k5⟩ :=
        moved_facts (s := s) gM g16 (show sz ≤ n by omega) hlen (allocate_some hal2)
      have hm1 := k1.2
      rw [k5] at hm1
      have hc1 : (moved s n sz nd).capacity = (moved s n sz nd).size_capacity := by
        simp [capacity, k5]
      have hs1 : (moved s n sz nd).size_size = sz := by simpa [size, k5] using k2
      have hb : n < (s.data.take sz ++ 0 :: nd.drop (sz + 1)).length := by omega
      cases hd : s.data_ with
      | some block =>
        have hs : s.size_size = sz := by simpa [size, hd] using hsz
        exact ⟨_, resize_heap_grow c hd (by omega) hres k5 (by omega) hb⟩
      | none =>
        have hL : s.small_size = .ok sz := by simpa [size, hd] using hsz
        exact ⟨_, resize_inline_to_heap c hd hL (by omega) h16 hres k5 hs1 hb⟩

theorem char_traits_compare_zero (x y : List Byte) : char_traits_compare x y 0 = 0 := by
  cases x <;> cases y <;> rfl

theorem static_cast_int_two_pow_31 : static_cast_int 2147483648 = -2147483648 := by decide

theorem static_cast_int_neg_two_pow_31 :
    static_cast_int ((0 + SIZE_MOD - 2147483648) % SIZE_MOD) = -2147483648 := by decide

/-- The instance `SmallString s; s.resize(2147483648, 'x');` exists, has
`size() == 2147483648`, and compares below the empty instance and the empty sequence,
which also compare below it. -/
theorem resize_two_pow_31 :
    ∃ t, default.resize stale_allocator 2147483648 120 = .ok t ∧ Reachable t ∧
      t.size = .ok 2147483648 ∧
      t.compare_small_string default = .ok (-2147483648) ∧
      default.compare_small_string t = .ok (-2147483648) ∧
      t.compare (c_str []) = .ok (-2147483648) := by
  obtain ⟨t, ht⟩ := @resize_total stale_allocator 2147483648 120 default inv_default
    (by decide) (by decide) rfl
  have hd : default.size = .ok 0 := rfl
  have hsz : t.size = .ok 2147483648 := by
    have := resize_size inv_default (by decide) hd ht
    rwa [if_neg (by decide)] at this
  have hlen : traits_length (c_str []) = .ok 0 := rfl
  refine ⟨t, ht, Reachable.resize _ _ _ _ _ Reachable.default (by decide) ht, hsz, ?_, ?_, ?_⟩
  · simp only [compare_small_string, compare_small_string_with, hsz, hd, bind, Except.bind,
      Nat.min_zero, char_traits_compare_zero, if_true, pure, Except.pure, Nat.sub_zero]
    rw [show (2147483648 + SIZE_MOD) % SIZE_MOD = 2147483648 by decide,
      static_cast_int_two_pow_31]
  · simp only [compare_small_string, compare_small_string_with, hsz, hd, bind, Except.bind,
      Nat.zero_min, char_traits_compare_zero, if_true, pure, Except.pure,
      static_cast_int_neg_two_pow_31]
  · simp only [compare, compare_with, hsz, hlen, bind, Except.bind,
      Nat.min_zero, char_traits_compare_zero, if_true, pure, Except.pure, Nat.sub_zero]
    rw [show (2147483648 + SIZE_MOD) % SIZE_MOD = 2147483648 by decide,
      static_cast_int_two_pow_31]

theorem char_traits_compare_antisymm :
    ∀ (x y : List Byte) (n : Nat), char_traits_compare x y n = - char_traits_compare y x n := by
  intro x
  induction x with
  | nil =>
    intro y n
    cases n with
    | zero => simp [char_traits_compare_zero]
    | succ n => cases y <;> simp [char_traits_compare]
  | cons a x ih =>
    intro y n
    cases n with
    | zero => simp [char_traits_compare_zero]
    | succ n =>
      cases y with
      | nil => simp [char_traits_compare]
      | cons b y =>
        by_cases hab : a = b
        · subst hab
          simp [char_traits_compare, ih y n]
        · have hba : ¬ b = a := fun e => hab e.symm
          simp [char_traits_compare, hab, hba]

theorem size_lt_of_inv {s : SmallString} {sz : Nat} (h : Inv s) (hsz : s.size = .ok sz) :
    sz < SIZE_MOD := by
  obtain ⟨sz', hsz', hcap, -⟩ := size_of_inv h
  rw [hsz] at hsz'
  cases hsz'
  have := capacity_lt s
  omega

/-- The cast is exact on differences of sizes that fit 32 bits. -/
theorem static_cast_int_sub {sa sb : Nat} (h1 : sa < sb + 2147483648)
    (h2 : sb ≤ sa + 2147483648) :
    static_cast_int ((sa + SIZE_MOD - sb) % SIZE_MOD) = (sa : Int) - (sb : Int) := by
  simp only [SIZE_MOD] at *
  unfold static_cast_int
  norm_num
  split_ifs <;> omega

theorem compare_small_string_eq {a b : SmallString} {sa sb : Nat} (ha : a.size = .ok sa)
    (hb : b.size = .ok sb) :
    a.compare_small_string b
      = .ok (if char_traits_compare a.data b.data (min sa sb) = 0
          then static_cast_int ((sa + SIZE_MOD - sb) % SIZE_MOD)
          else char_traits_compare a.data b.data (min sa sb)) := by
  simp only [compare_small_string, compare_small_string_with, ha, hb, bind, Except.bind, pure,
    Except.pure]
  split <;> rfl

theorem compare_eq {a : SmallString} {c : List Byte} {sa len : Nat} (ha : a.size = .ok sa)
    (hc : traits_length c = .ok len) :
    a.compare c
      = .ok (if char_traits_compare a.data c (min sa len) = 0
          then static_cast_int ((sa + SIZE_MOD - len) % SIZE_MOD)
          else char_traits_compare a.data c (min sa len)) := by
  simp only [compare, compare_with, ha, hc, bind, Except.bind, pure, Except.pure]
  split <;> rfl

/-- On sizes less than `2^31` apart, `compare` between instances is antisymmetric. -/
theorem compare_small_string_antisymm {a b : SmallString} {sa sb : Nat} {x y : Int}
    (ha : a.size = .ok sa) (hb : b.size = .ok sb)
    (hx : a.compare_small_string b = .ok x) (hy : b.compare_small_string a = .ok y)
    (h1 : sa < sb + 2147483648) (h2 : sb < sa + 2147483648) : y = -x := by
  rw [compare_small_string_eq ha hb] at hx
  rw [compare_small_string_eq hb ha] at hy
  cases hx
  cases hy
  rw [Nat.min_comm sb sa, char_traits_compare_antisymm b.data a.data,
    static_cast_int_sub h1 (by omega), static_cast_int_sub h2 (by omega)]
  by_cases hc : char_traits_compare a.data b.data (min sa sb) = 0
  · simp [hc]
  · simp [hc]

theorem bnot_decide_lt (y : Int) : (!decide (y < 0)) = decide (0 ≤ y) := by
  rw [← decide_not, decide_eq_decide]
  omega

theorem bnot_decide_gt (z : Int) : (!decide (z > 0)) = decide (z ≤ 0) := by
  rw [← decide_not, decide_eq_decide]
  omega

theorem bnot_decide_eq (x : Int) : (!decide (x = 0)) = decide (x ≠ 0) := by
  rw [← decide_not]

/-- The six operators between instances, from the two values of `compare`. -/
theorem operators_ss {a b : SmallString} {x y : Int} (hx : a.compare_small_string b = .ok x)
    (hy : b.compare_small_string a = .ok y) :
    a.operator_eq_ss b = .ok (decide (x = 0)) ∧ a.operator_ne_ss b = .ok (decide (x ≠ 0)) ∧
      a.operator_lt_ss b = .ok (decide (x < 0)) ∧ a.operator_le_ss b = .ok (decide (0 ≤ y)) ∧
      a.operator_gt_ss b = .ok (decide (y < 0)) ∧ a.operator_ge_ss b = .ok (decide (0 ≤ x)) := by
  simp only [operator_eq_ss, operator_ne_ss, operator_lt_ss, operator_le_ss, operator_gt_ss,
    operator_ge_ss, hx, hy, bind, Except.bind, pure, Except.pure, bnot_decide_lt, bnot_decide_eq,
    and_self]

/-- The twelve operators between an instance and a raw sequence, from the value of
`compare`. -/
theorem operators_raw {a : SmallString} {c : List Byte} {z : Int} (hz : a.compare c = .ok z) :
    (a.operator_eq c = .ok (decide (z = 0)) ∧ a.operator_ne c = .ok (decide (z ≠ 0)) ∧
      a.operator_lt c = .ok (decide (z < 0)) ∧ a.operator_le c = .ok (decide (z ≤ 0)) ∧
      a.operator_gt c = .ok (decide (0 < z)) ∧ a.operator_ge c = .ok (decide (0 ≤ z))) ∧
    (operator_eq_cs c a = .ok (decide (z = 0)) ∧ operator_ne_cs c a = .ok (decide (z ≠ 0)) ∧
      operator_lt_cs c a = .ok (decide (0 < z)) ∧ operator_le_cs c a = .ok (decide (0 ≤ z)) ∧
      operator_gt_cs c a = .ok (decide (z < 0)) ∧ operator_ge_cs c a = .ok (decide (z ≤ 0))) := by
  simp only [operator_eq, operator_ne, operator_lt, operator_le, operator_gt, operator_ge,
    operator_eq_cs, operator_ne_cs, operator_lt_cs, operator_le_cs, operator_gt_cs,
    operator_ge_cs, hz, bind, Except.bind, pure, Except.pure, bnot_decide_lt, bnot_decide_gt,
    gt_iff_lt, and_self]

theorem capacity_heap_mk (block st : List Byte) (n : Nat) :
    capacity ⟨some block, le_bytes n ++ st.drop 8⟩ = size_capacity ⟨none, st⟩ :=
  size_capacity_mk _ none st n

theorem capacity_of_some {s : SmallString} {block : List Byte} (hd : s.data_ = some block) :
    s.capacity = s.size_capacity := by
  simp [capacity, hd]

theorem capacity_of_none {s : SmallString} (hd : s.data_ = none) :
    s.capacity = SMALL_CAPACITY - 1 := by
  simp [capacity, hd]

theorem capacity_grown {s : SmallString} {block : List Byte} (first n : Nat) (c : Byte)
    (hd : s.data_ = some block) : (grown s first n c).capacity = s.capacity := by
  rw [capacity_of_some hd]
  exact capacity_heap_mk _ _ _

theorem capacity_assigned (s : SmallString) (string : List Byte) (len : Nat) :
    (assigned s string len).capacity = s.capacity ∧
      (assigned s string len).data_.isSome = s.data_.isSome := by
  cases hd : s.data_ with
  | none => rw [assigned_none string len hd]; exact ⟨(capacity_of_none hd).symm, rfl⟩
  | some block =>
    rw [assigned_some string len hd, capacity_of_some hd]
    exact ⟨capacity_heap_mk _ _ _, rfl⟩

/-- No successful `resize` lowers `capacity()` or leaves the heap. -/
theorem resize_capacity {alloc_ : Allocator} {n : Nat} {c : Byte} {s t : SmallString}
    (h : Inv s) (hn : n < SIZE_MOD) (hr : s.resize alloc_ n c = .ok t) :
    s.capacity ≤ t.capacity ∧ (s.data_.isSome → t.data_.isSome) := by
  rcases resize_ok_cases h hn hr with ⟨block, hd, h1, hb, rfl⟩ |
    ⟨block, s1, block1, hd, h1, hres, hd1, hb, rfl⟩ | ⟨L, hd, hL, h1, hL16, rfl⟩ |
    ⟨L, hd, hL, h1, h2, rfl⟩ | ⟨L, s1, block1, hd, hL, hL16, h16, hres, hd1, hb, rfl⟩
  · refine ⟨?_, fun _ => rfl⟩
    rw [capacity_heap_mk, capacity_of_some hd]
    exact le_refl _
  · refine ⟨?_, fun _ => rfl⟩
    rw [capacity_grown _ _ _ hd1]
    exact (reserve_ok_facts h hn hres).2.2.1
  · exact ⟨by rw [capacity_of_none hd]; exact le_refl _, by simp [hd]⟩
  · exact ⟨by rw [capacity_of_none hd]; exact le_refl _, by simp [hd]⟩
  · refine ⟨?_, fun _ => rfl⟩
    rw [capacity_grown _ _ _ hd1]
    exact (reserve_ok_facts h hn hres).2.2.1

theorem take_take_append {front : List Byte} {k m : Nat} (x rest : List Byte)
    (hf : front = x.take m) (hk : k ≤ m) (hm : m ≤ x.length) :
    (front ++ rest).take k = x.take k := by
  subst hf
  rw [List.take_append_of_le_length (by simp; omega), List.take_take, Nat.min_eq_left hk]

/-- A successful `resize(n, c)` keeps the bytes below `min(n, size())`. -/
theorem resize_take {alloc_ : Allocator} {n L : Nat} {c : Byte} {s t : SmallString}
    (h : Inv s) (hn : n < SIZE_MOD) (hL : s.size = .ok L) (hr : s.resize alloc_ n c = .ok t) :
    t.data.take (min n L) = s.data.take (min n L) := by
  obtain ⟨sz, hsz, hszc, hlen⟩ := size_of_inv h
  rw [hL] at hsz
  cases hsz
  rcases resize_ok_cases h hn hr with ⟨block, hd, h1, hb, rfl⟩ |
    ⟨block, s1, block1, hd, h1, hres, hd1, hb, rfl⟩ | ⟨L1, hd, hL1, h1, hL16, rfl⟩ |
    ⟨L1, hd, hL1, h1, h2, rfl⟩ | ⟨L1, s1, block1, hd, hL1, hL16, h16, hres, hd1, hb, rfl⟩
  · have hdata : s.data = block := by simp [data, hd]
    have hs : s.size_size = L := by simpa [size, hd] using hL
    rw [Nat.min_eq_left (by omega), hdata]
    exact take_take_append block (0 :: block.drop (n + 1)) rfl (le_refl _) (by omega)
  · have hs : s.size_size = L := by simpa [size, hd] using hL
    have hdata1 : s1.data = block1 := by simp [data, hd1]
    have hk := (reserve_ok_facts h hn hres).2.2.2.2.1 L hL
    rw [Nat.min_eq_right (by omega), ← hk, hs]
    show ((s1.data.take (L + 1) ++ List.replicate (n - (L + 1)) c) ++ _).take L = _
    rw [List.append_assoc]
    exact take_take_append s1.data _ rfl (by omega) (by rw [hdata1]; omega)
  · have hdata : s.data = s.storage := by simp [data, hd]
    have e : L1 = L := by
      have : s.size = .ok L1 := by simpa [size, hd] using hL1
      rw [hL] at this
      cases this
      rfl
    subst e
    rw [Nat.min_eq_left h1, hdata]
    exact take_take_append s.storage (0 :: s.storage.drop (n + 1)) rfl (le_refl _)
      (by rw [← hdata]; omega)
  · have hdata : s.data = s.storage := by simp [data, hd]
    have e : L1 = L := by
      have : s.size = .ok L1 := by simpa [size, hd] using hL1
      rw [hL] at this
      cases this
      rfl
    subst e
    rw [Nat.min_eq_right (by omega), hdata]
    show ((s.storage.take L1 ++ List.replicate (n - L1) c) ++ _).take L1 = _
    rw [List.append_assoc]
    exact take_take_append s.storage _ rfl (le_refl _) (by rw [← hdata]; omega)
  · have e : L1 = L := by
      have : s.size = .ok L1 := by simpa [size, hd] using hL1
      rw [hL] at this
      cases this
      rfl
    subst e
    have hdata1 : s1.data = block1 := by simp [data, hd1]
    have hk := (reserve_ok_facts h hn hres).2.2.2.2.1 L1 hL
    rw [Nat.min_eq_right (by simp only [SMALL_CAPACITY] at *; omega), ← hk]
    show ((s1.data.take L1 ++ List.replicate (n - L1) c) ++ _).take L1 = _
    rw [List.append_assoc]
    exact take_take_append s1.data _ rfl (le_refl _)
      (by rw [hdata1]; simp only [SMALL_CAPACITY] at *; omega)

theorem capacity_lt_data_length {s : SmallString} (h : Inv s) : s.capacity < s.data.length := by
  cases hd : s.data_ with
  | none =>
    simp only [capacity_of_none hd, data, hd, h.1, SMALL_CAPACITY]
    decide
  | some block =>
    have hm := h.2
    rw [hd] at hm
    simp only [capacity_of_some hd, data, hd, hm.1]
    omega

/-- An assignment that fits the current capacity succeeds. -/
theorem operator_assign_total_of_le (alloc_ : Allocator) {string : List Byte} {len : Nat}
    {s : SmallString} (h : Inv s) (hlen : traits_length string = .ok len)
    (hcap : len ≤ s.capacity) : ∃ t, s.operator_assign alloc_ string = .ok t :=
  ⟨_, operator_assign_eq hlen (reserve_of_le alloc_ hcap)
    (by have := capacity_lt_data_length h; omega)⟩

/-- On an inline instance `reserve(16)` stores outside the inline array. -/
theorem reserve_small_capacity_inline (alloc_ : Allocator) {s : SmallString} (h : Inv s)
    (hd : s.data_ = none) : s.reserve alloc_ SMALL_CAPACITY = .error .undefined := by
  have h16 := h.1
  simp only [SMALL_CAPACITY] at h16
  simp [reserve, capacity, hd, SMALL_CAPACITY, store, h16, bind, Except.bind]

end SmallString

/-! ## The claims -/

open SmallString

theorem seventeen_constructed :
    from_c_str stale_allocator
      (c_str [48, 49, 50, 51, 52, 53, 54, 55, 56, 57, 97, 98, 99, 100, 101, 102, 103])
      = .ok seventeen :=
  rfl

theorem seventeen_reachable : Reachable seventeen :=
  Reachable.from_c_str stale_allocator _ _ (by decide) seventeen_constructed

theorem abc_reachable : Reachable abc :=
  Reachable.from_c_str stale_allocator (c_str [97, 98, 99]) _ (by decide) rfl

/-- C1: for every null-terminated byte sequence of length at most 15, the instance
constructed from it exists, is in inline mode, has `size()` equal to the length and
`capacity()` equal to 15, its first `size()` bytes are the bytes of the sequence,
and it compares equal to the sequence. -/
theorem C1_construct_inline (alloc_ : Allocator) (bytes : List Byte) (hz : 0 ∉ bytes)
    (hl : bytes.length ≤ 15) :
    ∃ t, from_c_str alloc_ (c_str bytes) = .ok t ∧ t.data_ = none ∧
      t.size = .ok bytes.length ∧ t.capacity = 15 ∧ t.content = .ok bytes ∧
      t.operator_eq (c_str bytes) = .ok true := by
  have hlen : traits_length (c_str bytes) = .ok bytes.length :=
    traits_length_append bytes [] (fun b hb hb0 => hz (hb0 ▸ hb))
  have hcap : bytes.length ≤ default.capacity := by
    show bytes.length ≤ SMALL_CAPACITY - 1
    simpa [SMALL_CAPACITY] using hl
  have hfit : bytes.length ≤ default.data.length := by
    show bytes.length ≤ (le_bytes 0 ++ le_bytes 0).length
    simp [le_bytes_length]; omega
  have hst : default.storage = List.replicate 16 0 := by decide
  have hdrop : (List.replicate 16 (0 : Byte)).drop bytes.length
      = 0 :: List.replicate (15 - bytes.length) 0 := by
    rw [List.drop_replicate, show 16 - bytes.length = (15 - bytes.length) + 1 by omega,
      List.replicate_succ]
  have ht : assigned default (c_str bytes) bytes.length
      = ⟨none, bytes ++ 0 :: List.replicate (15 - bytes.length) 0⟩ := by
    rw [assigned_none _ _ rfl, hst, hdrop]
    simp [c_str]
  have hsz : size ⟨none, bytes ++ 0 :: List.replicate (15 - bytes.length) 0⟩
      = .ok bytes.length :=
    traits_length_append bytes _ (fun b hb hb0 => hz (hb0 ▸ hb))
  refine ⟨_, ?_, ?_, hsz, rfl, ?_, ?_⟩
  · rw [from_c_str_eq, operator_assign_eq hlen (reserve_of_le alloc_ hcap) hfit, ht]
  · rfl
  · simp [content, hsz, bind, Except.bind, data, pure, Except.pure]
  · exact operator_eq_of_content hz hsz rfl

/-- C1 at `"ayy lmao"`. -/
theorem C1_construct_inline_witness :
    ∃ t, from_c_str stale_allocator (c_str [97, 121, 121, 32, 108, 109, 97, 111]) = .ok t ∧
      t.data_ = none ∧ t.size = .ok 8 ∧ t.capacity = 15 ∧
      t.content = .ok [97, 121, 121, 32, 108, 109, 97, 111] ∧
      t.operator_eq (c_str [97, 121, 121, 32, 108, 109, 97, 111]) = .ok true :=
  C1_construct_inline stale_allocator [97, 121, 121, 32, 108, 109, 97, 111] (by decide)
    (by decide)

/-- C2 fails on the code: constructing from `"abc"` and then assigning `"x"` leaves an
inline instance holding `"xbc"`: `size()` is 3, not 1, and the instance does not compare
equal to `"x"`.  The assignment copies the bytes and stores no terminator after them. -/
theorem C2_assign_shorter_inline (a1 a2 : Allocator) :
    ∃ s t, from_c_str a1 (c_str [97, 98, 99]) = .ok s ∧ Reachable s ∧
      s.operator_assign a2 (c_str [120]) = .ok t ∧
      t = ⟨none, [120, 98, 99, 0, 0, 0, 0, 0, 0, 0, 0, 0, 0, 0, 0, 0]⟩ ∧
      t.size = .ok 3 ∧ t.content = .ok [120, 98, 99] ∧
      t.operator_eq (c_str [120]) = .ok false :=
  ⟨⟨none, [97, 98, 99, 0, 0, 0, 0, 0, 0, 0, 0, 0, 0, 0, 0, 0]⟩, _, rfl,
    Reachable.from_c_str a1 (c_str [97, 98, 99]) _ (by decide) rfl, rfl, rfl, rfl, rfl, rfl⟩

/-- C3 fails on the code: for a sequence of exactly 16 bytes `reserve(16)` is past the
early return (`16 <= 15` is false), does not take the heap branch (`16 > SMALL_CAPACITY`
is false) and stores the terminator at `small_data_[16]`, outside the 16-byte array.
No heap block is ever requested, so the instance is not in heap mode. -/
theorem C3_construct_sixteen (alloc_ : Allocator) (bytes : List Byte) (hz : 0 ∉ bytes)
    (hl : bytes.length = 16) :
    from_c_str alloc_ (c_str bytes) = .error .undefined ∧
      default.reserve alloc_ 16 = .error .undefined := by
  have hlen : traits_length (c_str bytes) = .ok 16 := by
    rw [← hl]
    exact traits_length_append bytes [] (fun b hb hb0 => hz (hb0 ▸ hb))
  have hr : default.reserve alloc_ 16 = .error .undefined := rfl
  refine ⟨?_, hr⟩
  simp only [from_c_str, hlen, hr, bind, Except.bind]

/-- C3 at `"0123456789abcdef"`. -/
theorem C3_construct_sixteen_witness :
    from_c_str stale_allocator
        (c_str [48, 49, 50, 51, 52, 53, 54, 55, 56, 57, 97, 98, 99, 100, 101, 102])
      = .error .undefined ∧
      default.reserve stale_allocator 16 = .error .undefined :=
  C3_construct_sixteen stale_allocator
    [48, 49, 50, 51, 52, 53, 54, 55, 56, 57, 97, 98, 99, 100, 101, 102] (by decide) (by decide)

/-- C4: after `clear()` every reachable instance is in inline mode with `size() == 0`
and `capacity() == 15`, and compares equal to the empty sequence. -/
theorem C4_clear (s : SmallString) (h : Reachable s) :
    s.clear.data_ = none ∧ s.clear.size = .ok 0 ∧ s.clear.capacity = 15 ∧
      s.clear.operator_eq (c_str []) = .ok true := by
  rw [clear_eq_default (reachable_inv h).1]
  exact ⟨rfl, rfl, rfl, rfl⟩

/-- C4 at a heap-mode instance. -/
theorem C4_clear_witness :
    seventeen.clear.data_ = none ∧ seventeen.clear.size = .ok 0 ∧
      seventeen.clear.capacity = 15 ∧ seventeen.clear.operator_eq (c_str []) = .ok true :=
  C4_clear seventeen seventeen_reachable

/-- C5 as stated fails: on the inline instance `"abc"`, `resize(5, '\0')` succeeds and
`size()` is still 3. -/
theorem C5_resize_zero_fill_inline :
    Reachable abc ∧ abc.resize stale_allocator 5 0 = .ok abc ∧ abc.size = .ok 3 :=
  ⟨abc_reachable, rfl, rfl⟩

/-- C5, amended: on a reachable instance with `size() == L`, `resize(n, c)` succeeds
whenever `n <= capacity()`, and after any successful `resize(n, c)` the value of
`size()` is `n`, except for an inline instance grown to `n <= 15` with `c == '\0'`,
where it stays `L`. -/
theorem C5_resize_size (alloc_ : Allocator) (n L : Nat) (c : Byte) (s : SmallString)
    (h : Reachable s) (hn : n < SIZE_MOD) (hL : s.size = .ok L) :
    (n ≤ s.capacity → ∃ t, s.resize alloc_ n c = .ok t) ∧
    ∀ t, s.resize alloc_ n c = .ok t →
      t.size = .ok (if s.data_ = none ∧ c = 0 ∧ L < n ∧ n < SMALL_CAPACITY then L else n) :=
  ⟨fun hcap => resize_total_of_le alloc_ c (reachable_inv h) hcap,
    fun _ hr => resize_size (reachable_inv h) hn hL hr⟩

/-- C5 (amended) at the heap-mode instance of 17 bytes, resized to 16. -/
theorem C5_resize_size_witness :
    (16 ≤ seventeen.capacity → ∃ t, seventeen.resize stale_allocator 16 0 = .ok t) ∧
      ∀ t, seventeen.resize stale_allocator 16 0 = .ok t →
        t.size = .ok (if seventeen.data_ = none ∧ (0 : Byte) = 0 ∧ 17 < 16 ∧ 16 < SMALL_CAPACITY
          then 17 else 16) :=
  C5_resize_size stale_allocator 16 17 0 seventeen seventeen_reachable (by decide) rfl

/-- C6: on a reachable instance with `size() == L` and for `n <= L`, `resize(n, c)`
succeeds; afterwards the content is the first `n` bytes of the previous content,
`size()` is `n`, and `capacity()` and the storage mode are as before. -/
theorem C6_resize_shrink (alloc_ : Allocator) (n L : Nat) (c : Byte) (s : SmallString)
    (h : Reachable s) (hL : s.size = .ok L) (hn : n ≤ L) :
    ∃ t old, s.resize alloc_ n c = .ok t ∧ s.content = .ok old ∧ t.content = .ok (old.take n) ∧
      t.size = .ok n ∧ t.capacity = s.capacity ∧ t.data_.isSome = s.data_.isSome := by
  have hi := reachable_inv h
  obtain ⟨sz, hsz, hszc, hlen⟩ := size_of_inv hi
  rw [hL] at hsz
  cases hsz
  have hM : n < SIZE_MOD := by have := capacity_lt s; omega
  have hold : (s.data.take L).take n = s.data.take n := by
    rw [List.take_take, Nat.min_eq_left hn]
  cases hd : s.data_ with
  | some block =>
    have hdata : s.data = block := by simp [data, hd]
    have hs : s.size_size = L := by simpa [size, hd] using hL
    have hb : n < block.length := by rw [← hdata]; omega
    have htl : (block.take n).length = n := by simp; omega
    refine ⟨_, _, resize_heap_shrink alloc_ c hd (by omega) hb, content_of_inv hi hL, ?_,
      size_heap_mk _ _ hM, ?_, rfl⟩
    · rw [content_eq (size_heap_mk _ _ hM) (by simp [data]; omega), hold, hdata]
      simp [data, List.take_append_eq_append_take, htl]
    · show size_capacity _ = _
      rw [size_capacity_mk _ none]
      simp only [capacity, hd]
      rfl
  | none =>
    have hdata : s.data = s.storage := by simp [data, hd]
    have hLs : s.small_size = .ok L := by simpa [size, hd] using hL
    have hb : n < s.storage.length := by rw [← hdata]; omega
    obtain ⟨z, l⟩ := take_no_zero hLs hn
    have hsz : size ⟨none, s.storage.take n ++ 0 :: s.storage.drop (n + 1)⟩ = .ok n := by
      have := size_inline_mk _ (s.storage.drop (n + 1)) z
      rwa [l] at this
    refine ⟨_, _, resize_inline_shrink alloc_ c hd hLs hn hb, content_of_inv hi hL, ?_, hsz, ?_,
      rfl⟩
    · rw [content_eq hsz (by simp [data]; omega), hold, hdata]
      simp [data, List.take_append_eq_append_take, l]
    · simp [capacity, hd]

/-- C6 at the heap-mode instance of 17 bytes, resized to 4. -/
theorem C6_resize_shrink_witness :
    ∃ t old, seventeen.resize stale_allocator 4 0 = .ok t ∧ seventeen.content = .ok old ∧
      t.content = .ok (old.take 4) ∧ t.size = .ok 4 ∧ t.capacity = seventeen.capacity ∧
      t.data_.isSome = seventeen.data_.isSome :=
  C6_resize_shrink stale_allocator 4 17 0 seventeen seventeen_reachable rfl (by decide)

/-- C7 fails on the code in heap mode: growing the 17-byte instance with
`resize(20, 'x')` leaves the byte at index 17 equal to the terminator `reserve` stored
there; the fill loop starts at `end() + 1`, so only indices 18 and 19 receive `'x'`. -/
theorem C7_resize_grow_heap :
    Reachable seventeen ∧ seventeen.size = .ok 17 ∧
      seventeen.resize stale_allocator 20 120
        = .ok ⟨some [48, 49, 50, 51, 52, 53, 54, 55, 56, 57, 97, 98, 99, 100, 101, 102, 103,
            0, 120, 120, 0],
          [20, 0, 0, 0, 0, 0, 0, 0, 20, 0, 0, 0, 0, 0, 0, 0]⟩ :=
  ⟨seventeen_reachable, rfl, rfl⟩

/-- C8 fails on the code: the instance constructed from a 17-byte sequence has
`size() == 17`, and the byte at offset 17 of its heap block is whatever the fresh block
held there (`0xAA` with `stale_allocator`): the constructor copies 17 bytes and stores no
terminator after them. -/
theorem C8_construct_unterminated :
    from_c_str stale_allocator
        (c_str [48, 49, 50, 51, 52, 53, 54, 55, 56, 57, 97, 98, 99, 100, 101, 102, 103])
      = .ok seventeen ∧
    seventeen.size = .ok 17 ∧ seventeen.data[17]? = some 170 :=
  ⟨rfl, rfl, rfl⟩

/-- C9 fails on the code at `n == 16`: on every reachable inline instance
`capacity()` is 15, and `reserve(16)` neither throws `std::bad_alloc` nor moves to the
heap: it stores at `small_data_[16]`, outside the inline array. -/
theorem C9_reserve_sixteen (alloc_ : Allocator) (s : SmallString) (h : Reachable s)
    (hd : s.data_ = none) :
    s.capacity = 15 ∧ s.reserve alloc_ 16 = .error .undefined := by
  have h16 := (reachable_inv h).1
  simp only [SMALL_CAPACITY] at h16
  refine ⟨by simp [capacity, hd, SMALL_CAPACITY], ?_⟩
  simp [reserve, capacity, hd, SMALL_CAPACITY, store, h16, bind, Except.bind]

/-- C9 at the inline instance `"abc"`. -/
theorem C9_reserve_sixteen_witness :
    abc.capacity = 15 ∧ abc.reserve stale_allocator 16 = .error .undefined :=
  C9_reserve_sixteen stale_allocator abc abc_reachable rfl

/-- C10: on a reachable instance, `reserve(n)` with `n <= capacity()` returns the
instance unchanged; every successful `reserve(n)` leaves `size()` and the content
unchanged; and `reserve(n)` succeeds for every `n` above `SMALL_CAPACITY` whose block
the allocator grants. -/
theorem C10_reserve_frame (alloc_ : Allocator) (n : Nat) (s : SmallString) (h : Reachable s)
    (hn : n < SIZE_MOD) :
    (n ≤ s.capacity → s.reserve alloc_ n = .ok s) ∧
    (∀ t, s.reserve alloc_ n = .ok t → t.size = s.size ∧ t.content = s.content) ∧
    (SMALL_CAPACITY < n → n + 1 < SIZE_MOD → alloc_.refuses (n + 1) = false →
      ∃ t, s.reserve alloc_ n = .ok t) := by
  have hi := reachable_inv h
  refine ⟨fun hcap => reserve_of_le alloc_ hcap, ?_, fun h16 hM hal => reserve_total hi h16 hM hal⟩
  intro t hr
  obtain ⟨f1, -, -, f4, f5, -⟩ := reserve_ok_facts hi hn hr
  obtain ⟨sz, hsz, -⟩ := size_of_inv hi
  refine ⟨f4, ?_⟩
  rw [content_of_inv hi hsz, content_of_inv f1 (f4.trans hsz), f5 sz hsz]

/-- C10 at the inline instance `"abc"` and `n = 20`. -/
theorem C10_reserve_frame_witness :
    (20 ≤ abc.capacity → abc.reserve stale_allocator 20 = .ok abc) ∧
    (∀ t, abc.reserve stale_allocator 20 = .ok t → t.size = abc.size ∧ t.content = abc.content) ∧
    (SMALL_CAPACITY < 20 → 20 + 1 < SIZE_MOD → stale_allocator.refuses (20 + 1) = false →
      ∃ t, abc.reserve stale_allocator 20 = .ok t) :=
  C10_reserve_frame stale_allocator 20 abc abc_reachable (by decide)

/-- C11: on a reachable instance `at(i)` raises `std::out_of_range` exactly when
`i >= size()`; for `i < size()` it returns the byte at index `i` of the content, the
byte `operator[](i)` returns.  So `at(size())` raises, and `at(size() - 1)` succeeds
when `size() > 0`. -/
theorem C11_at (s : SmallString) (h : Reachable s) :
    ∃ sz old, s.size = .ok sz ∧ s.content = .ok old ∧
      (∀ i, s.at_ i = .error .out_of_range ↔ sz ≤ i) ∧
      (∀ i, i < sz → ∃ b, s.at_ i = .ok b ∧ s.operator_index i = .ok b ∧ old[i]? = some b) ∧
      s.at_ sz = .error .out_of_range ∧
      (0 < sz → ∃ b, s.at_ (sz - 1) = .ok b) := by
  have hi := reachable_inv h
  obtain ⟨sz, hsz, -, hlen⟩ := size_of_inv hi
  have hge : ∀ i, sz ≤ i → s.at_ i = .error .out_of_range := by
    intro i hle
    simp [at_, bounds_check, hsz, hle, bind, Except.bind]
  have hlt : ∀ i, i < sz →
      ∃ b, s.at_ i = .ok b ∧ s.operator_index i = .ok b ∧ (s.data.take sz)[i]? = some b := by
    intro i hlt
    have hb : i < s.data.length := by omega
    have hget : s.data[i]? = some s.data[i] := List.getElem?_eq_getElem hb
    refine ⟨s.data[i], ?_, ?_, ?_⟩
    · simp [at_, bounds_check, hsz, not_le.mpr hlt, bind, Except.bind, pure, Except.pure,
        operator_index, hget]
    · simp [operator_index, hget]
    · rw [List.getElem?_take_of_lt hlt, hget]
  refine ⟨sz, _, hsz, content_of_inv hi hsz, ?_, hlt, hge sz (le_refl _), ?_⟩
  · intro i
    refine ⟨fun he => ?_, hge i⟩
    by_contra hn
    obtain ⟨b, hb, -⟩ := hlt i (not_le.mp hn)
    rw [hb] at he
    cases he
  · intro hpos
    obtain ⟨b, hb, -⟩ := hlt (sz - 1) (by omega)
    exact ⟨b, hb⟩

/-- C11 at the inline instance `"abc"`. -/
theorem C11_at_witness :
    ∃ sz old, abc.size = .ok sz ∧ abc.content = .ok old ∧
      (∀ i, abc.at_ i = .error .out_of_range ↔ sz ≤ i) ∧
      (∀ i, i < sz → ∃ b, abc.at_ i = .ok b ∧ abc.operator_index i = .ok b ∧ old[i]? = some b) ∧
      abc.at_ sz = .error .out_of_range ∧
      (0 < sz → ∃ b, abc.at_ (sz - 1) = .ok b) :=
  C11_at abc abc_reachable

/-- C12: when the allocator cannot supply the block that growing a reachable instance
to `n` asks for, `reserve(n)`, `resize(n, c)` and the assignment of a sequence of
length `n` each end on `std::bad_alloc` with the object exactly as it was; and whenever
one of the three ends on `std::bad_alloc`, for any argument, the object is as it was. -/
theorem C12_all_or_nothing (alloc_ : Allocator) (n : Nat) (c : Byte) (string : List Byte)
    (s : SmallString) (h : Reachable s) (hcap : s.capacity < n) (h16 : SMALL_CAPACITY < n)
    (hal : alloc_.allocate ((n + 1) % SIZE_MOD) = none) (hlen : traits_length string = .ok n) :
    (s.reserve_in_place alloc_ n = (s, some .bad_alloc) ∧
      s.resize_in_place alloc_ n c = (s, some .bad_alloc) ∧
      s.operator_assign_in_place alloc_ string = (s, some .bad_alloc)) ∧
    (s.reserve alloc_ n = .error .bad_alloc ∧ s.resize alloc_ n c = .error .bad_alloc ∧
      s.operator_assign alloc_ string = .error .bad_alloc) ∧
    (∀ a m t, s.reserve_in_place a m = (t, some .bad_alloc) → t = s) ∧
    (∀ a m b t, s.resize_in_place a m b = (t, some .bad_alloc) → t = s) ∧
    (∀ a m t, s.operator_assign_in_place a m = (t, some .bad_alloc) → t = s) := by
  have h1 := reserve_in_place_refused hcap h16 hal
  have h2 := resize_in_place_refused c (reachable_inv h) hcap h16 hal
  have h3 := operator_assign_in_place_refused hlen hcap h16 hal
  refine ⟨⟨h1, h2, h3⟩, ⟨?_, ?_, ?_⟩, fun _ _ _ => reserve_in_place_bad_alloc,
    fun _ _ _ _ => resize_in_place_bad_alloc, fun _ _ _ => operator_assign_in_place_bad_alloc⟩
  · rw [← result_reserve_in_place, h1]; rfl
  · rw [← result_resize_in_place, h2]; rfl
  · rw [← result_operator_assign_in_place, h3]; rfl

/-- C12 at the inline instance `"abc"`, grown to 17 with an allocator that refuses. -/
theorem C12_all_or_nothing_witness :
    (abc.reserve_in_place refusing_allocator 17 = (abc, some .bad_alloc) ∧
      abc.resize_in_place refusing_allocator 17 120 = (abc, some .bad_alloc) ∧
      abc.operator_assign_in_place refusing_allocator
        (c_str [48, 49, 50, 51, 52, 53, 54, 55, 56, 57, 97, 98, 99, 100, 101, 102, 103])
        = (abc, some .bad_alloc)) ∧
    (abc.reserve refusing_allocator 17 = .error .bad_alloc ∧
      abc.resize refusing_allocator 17 120 = .error .bad_alloc ∧
      abc.operator_assign refusing_allocator
        (c_str [48, 49, 50, 51, 52, 53, 54, 55, 56, 57, 97, 98, 99, 100, 101, 102, 103])
        = .error .bad_alloc) ∧
    (∀ a m t, abc.reserve_in_place a m = (t, some .bad_alloc) → t = abc) ∧
    (∀ a m b t, abc.resize_in_place a m b = (t, some .bad_alloc) → t = abc) ∧
    (∀ a m t, abc.operator_assign_in_place a m = (t, some .bad_alloc) → t = abc) :=
  C12_all_or_nothing refusing_allocator 17 120
    (c_str [48, 49, 50, 51, 52, 53, 54, 55, 56, 57, 97, 98, 99, 100, 101, 102, 103])
    abc abc_reachable (by decide) (by decide) rfl rfl

/-- C13 fails on the code for large sizes: the instance of size 2147483648 obtained by
`resize(2147483648, 'x')` on an empty instance has an empty common prefix with the
empty instance and with `""`, and is the longer one, yet `compare` returns
`-2147483648` for both: `static_cast<int>` keeps the low 32 bits of
`size() - other.size()`. -/
theorem C13_compare_truncates :
    ∃ t, default.resize stale_allocator 2147483648 120 = .ok t ∧ Reachable t ∧
      t.size = .ok 2147483648 ∧ default.size = .ok 0 ∧
      char_traits_compare t.data default.data (min 2147483648 0) = 0 ∧
      t.compare_small_string default = .ok (-2147483648) ∧
      t.compare (c_str []) = .ok (-2147483648) := by
  obtain ⟨t, h1, h2, h3, h4, -, h6⟩ := resize_two_pow_31
  exact ⟨t, h1, h2, h3, rfl, char_traits_compare_zero _ _, h4, h6⟩

/-- C14 fails on the code for large sizes, although `std::char_traits<char>::compare`
is antisymmetric: with `a` the instance of size 2147483648 and `b` the empty instance,
`a.compare(b)` and `b.compare(a)` are both `-2147483648`. -/
theorem C14_compare_not_antisymmetric :
    (∀ x y n, char_traits_compare x y n = - char_traits_compare y x n) ∧
    ∃ t, default.resize stale_allocator 2147483648 120 = .ok t ∧ Reachable t ∧
      t.compare_small_string default = .ok (-2147483648) ∧
      default.compare_small_string t = .ok (-2147483648) := by
  obtain ⟨t, h1, h2, -, h4, h5, -⟩ := resize_two_pow_31
  exact ⟨char_traits_compare_antisymm, t, h1, h2, h4, h5⟩

/-- For reachable instances `a`, `b` and a null-terminated sequence `c`, every
operator returns, and with `x = a.compare(b)`, `y = b.compare(a)` and
`z = a.compare(c)`: `a == b`, `a != b`, `a < b`, `a >= b` are `x == 0`, `x != 0`,
`x < 0`, `x >= 0`; `a <= b` and `a > b` are computed from `y`, as `y >= 0` and `y < 0`,
which is `x <= 0` and `x > 0` when the sizes are less than `2^31` apart; the operators
with `c` on either side are computed from `z`. -/
theorem operators_of_compare (a b : SmallString) (c : List Byte) (len : Nat) (ha : Reachable a)
    (hb : Reachable b) (hc : traits_length c = .ok len) :
    ∃ x y z sa sb, a.size = .ok sa ∧ b.size = .ok sb ∧
      a.compare_small_string b = .ok x ∧ b.compare_small_string a = .ok y ∧
      a.compare c = .ok z ∧
      (a.operator_eq_ss b = .ok (decide (x = 0)) ∧ a.operator_ne_ss b = .ok (decide (x ≠ 0)) ∧
        a.operator_lt_ss b = .ok (decide (x < 0)) ∧ a.operator_le_ss b = .ok (decide (0 ≤ y)) ∧
        a.operator_gt_ss b = .ok (decide (y < 0)) ∧ a.operator_ge_ss b = .ok (decide (0 ≤ x))) ∧
      (sa < sb + 2147483648 → sb < sa + 2147483648 → ((0 ≤ y ↔ x ≤ 0) ∧ (y < 0 ↔ 0 < x))) ∧
      (a.operator_eq c = .ok (decide (z = 0)) ∧ a.operator_ne c = .ok (decide (z ≠ 0)) ∧
        a.operator_lt c = .ok (decide (z < 0)) ∧ a.operator_le c = .ok (decide (z ≤ 0)) ∧
        a.operator_gt c = .ok (decide (0 < z)) ∧ a.operator_ge c = .ok (decide (0 ≤ z))) ∧
      (operator_eq_cs c a = .ok (decide (z = 0)) ∧ operator_ne_cs c a = .ok (decide (z ≠ 0)) ∧
        operator_lt_cs c a = .ok (decide (0 < z)) ∧ operator_le_cs c a = .ok (decide (0 ≤ z)) ∧
        operator_gt_cs c a = .ok (decide (z < 0)) ∧ operator_ge_cs c a = .ok (decide (z ≤ 0))) := by
  obtain ⟨sa, hsa, -⟩ := size_of_inv (reachable_inv ha)
  obtain ⟨sb, hsb, -⟩ := size_of_inv (reachable_inv hb)
  have hx := compare_small_string_eq hsa hsb
  have hy := compare_small_string_eq hsb hsa
  have hz := compare_eq hsa hc
  refine ⟨_, _, _, sa, sb, hsa, hsb, hx, hy, hz, operators_ss hx hy, ?_, (operators_raw hz).1,
    (operators_raw hz).2⟩
  intro h1 h2
  have := compare_small_string_antisymm hsa hsb hx hy h1 h2
  rw [this]
  constructor <;> constructor <;> intro h <;> omega

/-- C15 fails on the code for large sizes: with `a` the instance of size 2147483648
and `b` the empty instance, `a.compare(b)` is `-2147483648`, so by the claim `a > b` is
false and `a <= b` is true; the operators return `a > b` true and `a <= b` false.
`a < b` is true as well, and against the raw sequence `""` the same `a` gives `a > ""`
false.  Both operators between instances are written with the arguments swapped, and
`b.compare(a)` is `-2147483648` too: `compare` returns the low 32 bits of the size
difference. -/
theorem C15_operators_large_sizes :
    ∃ t, default.resize stale_allocator 2147483648 120 = .ok t ∧ Reachable t ∧
      t.compare_small_string default = .ok (-2147483648) ∧
      default.compare_small_string t = .ok (-2147483648) ∧
      t.compare (c_str []) = .ok (-2147483648) ∧
      t.operator_gt_ss default = .ok true ∧ t.operator_le_ss default = .ok false ∧
      t.operator_lt_ss default = .ok true ∧ t.operator_gt (c_str []) = .ok false := by
  obtain ⟨t, h1, h2, -, h4, h5, h6⟩ := resize_two_pow_31
  refine ⟨t, h1, h2, h4, h5, h6, ?_, ?_, ?_, ?_⟩
  · rw [(operators_ss h4 h5).2.2.2.2.1]; rfl
  · rw [(operators_ss h4 h5).2.2.2.1]; rfl
  · rw [(operators_ss h4 h5).2.2.1]; rfl
  · rw [(operators_raw h6).1.2.2.2.2.1]; rfl

/-- C16: on a reachable instance with `size() == L`, after a successful `resize(n, c1)`
the call `resize(L, c2)` succeeds, the bytes at the indices below `min(n, L)` are the
original ones, and for `n >= L` the content is the original content. -/
theorem C16_resize_round_trip (a1 a2 : Allocator) (n L : Nat) (c1 c2 : Byte)
    (s t : SmallString) (h : Reachable s) (hn : n < SIZE_MOD) (hL : s.size = .ok L)
    (h1 : s.resize a1 n c1 = .ok t) :
    ∃ u, t.resize a2 L c2 = .ok u ∧ u.data.take (min n L) = s.data.take (min n L) ∧
      (L ≤ n → u.content = s.content) := by
  have hi := reachable_inv h
  have hit := resize_inv hi hn h1
  obtain ⟨sz, hsz, hszc, -⟩ := size_of_inv hi
  rw [hL] at hsz
  cases hsz
  have hLM := size_lt_of_inv hi hL
  have hcap := (resize_capacity hi hn h1).1
  obtain ⟨u, hu⟩ := resize_total_of_le a2 c2 hit (show L ≤ t.capacity by omega)
  have hiu := resize_inv hit hLM hu
  have hLt := resize_size hi hn hL h1
  have k1 := resize_take hi hn hL h1
  have k2 := resize_take hit hLM hLt hu
  have hsu := resize_size hit hLM hLt hu
  have key : u.data.take (min n L) = s.data.take (min n L) := by
    rw [← k1]
    have e := congrArg (List.take (min n L)) k2
    rw [List.take_take, List.take_take] at e
    have hm : min (min n L) (min L (if s.data_ = none ∧ c1 = 0 ∧ L < n ∧ n < SMALL_CAPACITY
        then L else n)) = min n L := by
      split_ifs <;> omega
    rwa [hm] at e
  refine ⟨u, hu, key, fun hle => ?_⟩
  have hsize : u.size = .ok L := by
    rw [hsu, if_neg]
    rintro ⟨-, -, hlt, -⟩
    split_ifs at hlt <;> omega
  rw [Nat.min_eq_right hle] at key
  rw [content_of_inv hiu hsize, content_of_inv hi hL, key]

/-- C16 at the 17-byte heap instance, grown to 20 with `'x'` and resized back to 17. -/
theorem C16_resize_round_trip_witness :
    ∃ u, SmallString.resize stale_allocator 17 0
        ⟨some [48, 49, 50, 51, 52, 53, 54, 55, 56, 57, 97, 98, 99, 100, 101, 102, 103,
            0, 120, 120, 0],
          [20, 0, 0, 0, 0, 0, 0, 0, 20, 0, 0, 0, 0, 0, 0, 0]⟩ = .ok u ∧
      u.data.take (min 20 17) = seventeen.data.take (min 20 17) ∧
      (17 ≤ 20 → u.content = seventeen.content) :=
  C16_resize_round_trip stale_allocator stale_allocator 20 17 120 0 seventeen _
    seventeen_reachable (by decide) rfl rfl

/-- C17: on a reachable instance, after a successful assignment, `reserve(n)` or
`resize(n, c)` the value of `capacity()` is at least what it was and a heap-mode
instance is still in heap mode; each of the three succeeds when the requested length
is within `capacity()`. -/
theorem C17_capacity_never_shrinks (alloc_ : Allocator) (n : Nat) (c : Byte)
    (string : List Byte) (s : SmallString) (h : Reachable s) (hn : n < SIZE_MOD)
    (hs : string.length ≤ SIZE_MOD) :
    (∀ t, s.operator_assign alloc_ string = .ok t →
      s.capacity ≤ t.capacity ∧ (s.data_.isSome → t.data_.isSome)) ∧
    (∀ t, s.reserve alloc_ n = .ok t →
      s.capacity ≤ t.capacity ∧ (s.data_.isSome → t.data_.isSome)) ∧
    (∀ t, s.resize alloc_ n c = .ok t →
      s.capacity ≤ t.capacity ∧ (s.data_.isSome → t.data_.isSome)) ∧
    (traits_length string = .ok n → n ≤ s.capacity →
      ∃ t, s.operator_assign alloc_ string = .ok t) ∧
    (n ≤ s.capacity →
      (∃ t, s.reserve alloc_ n = .ok t) ∧ ∃ t, s.resize alloc_ n c = .ok t) := by
  have hi := reachable_inv h
  refine ⟨?_, ?_, fun t hr => resize_capacity hi hn hr,
    fun hlen hcap => operator_assign_total_of_le alloc_ hi hlen hcap,
    fun hcap => ⟨⟨s, reserve_of_le alloc_ hcap⟩, resize_total_of_le alloc_ c hi hcap⟩⟩
  · intro t hr
    obtain ⟨len, s1, hlen, hM, hres, rfl⟩ := operator_assign_ok_cases hi hs hr
    obtain ⟨-, -, f3, -, -, f6⟩ := reserve_ok_facts hi hM hres
    obtain ⟨e1, e2⟩ := capacity_assigned s1 (string) len
    rw [e1, e2]
    exact ⟨f3, f6⟩
  · intro t hr
    obtain ⟨-, -, f3, -, -, f6⟩ := reserve_ok_facts hi hn hr
    exact ⟨f3, f6⟩

/-- C17 at the 17-byte heap instance, assigned `"short"`. -/
theorem C17_capacity_never_shrinks_witness :
    (∀ t, seventeen.operator_assign stale_allocator (c_str [115, 104, 111, 114, 116]) = .ok t →
      seventeen.capacity ≤ t.capacity ∧ (seventeen.data_.isSome → t.data_.isSome)) ∧
    (∀ t, seventeen.reserve stale_allocator 5 = .ok t →
      seventeen.capacity ≤ t.capacity ∧ (seventeen.data_.isSome → t.data_.isSome)) ∧
    (∀ t, seventeen.resize stale_allocator 5 0 = .ok t →
      seventeen.capacity ≤ t.capacity ∧ (seventeen.data_.isSome → t.data_.isSome)) ∧
    (traits_length (c_str [115, 104, 111, 114, 116]) = .ok 5 → 5 ≤ seventeen.capacity →
      ∃ t, seventeen.operator_assign stale_allocator (c_str [115, 104, 111, 114, 116]) = .ok t) ∧
    (5 ≤ seventeen.capacity →
      (∃ t, seventeen.reserve stale_allocator 5 = .ok t) ∧
        ∃ t, seventeen.resize stale_allocator 5 0 = .ok t) :=
  C17_capacity_never_shrinks stale_allocator 5 0 (c_str [115, 104, 111, 114, 116]) seventeen
    seventeen_reachable (by decide) (by decide)

/-- C18: on a reachable instance in heap mode `size()` and `capacity()` are the stored
`size_.size` and `size_.capacity`, the stored size is at most the stored capacity, the
stored capacity is above the inline maximum 15, and the heap block has
`capacity + 1` bytes. -/
theorem C18_heap_invariant (s : SmallString) (block : List Byte) (h : Reachable s)
    (hd : s.data_ = some block) :
    s.size = .ok s.size_size ∧ s.capacity = s.size_capacity ∧
      s.size_size ≤ s.size_capacity ∧ 15 < s.size_capacity ∧
      block.length = s.size_capacity + 1 := by
  have hm := (reachable_inv h).2
  rw [hd] at hm
  obtain ⟨m1, m2, m3⟩ := hm
  refine ⟨by simp [size, hd], capacity_of_some hd, m2, ?_, m1⟩
  simp only [SMALL_CAPACITY] at m3
  omega

/-- C18 at the 17-byte heap instance. -/
theorem C18_heap_invariant_witness :
    seventeen.size = .ok seventeen.size_size ∧ seventeen.capacity = seventeen.size_capacity ∧
      seventeen.size_size ≤ seventeen.size_capacity ∧ 15 < seventeen.size_capacity ∧
      [48, 49, 50, 51, 52, 53, 54, 55, 56, 57, 97, 98, 99, 100, 101, 102, 103,
        (170 : Byte)].length = seventeen.size_capacity + 1 :=
  C18_heap_invariant seventeen _ seventeen_reachable rfl

/-- C19: for every null-terminated byte sequence longer than 16 bytes whose block the
allocator grants, the instance constructed from it exists, is in heap mode, has
`size()` and `capacity()` equal to the length, holds the bytes of the sequence as its
content, and compares equal to the sequence. -/
theorem C19_construct_heap (alloc_ : Allocator) (bytes : List Byte) (hz : 0 ∉ bytes)
    (hl : SMALL_CAPACITY < bytes.length) (hM : bytes.length + 1 < SIZE_MOD)
    (hal : alloc_.refuses (bytes.length + 1) = false) :
    ∃ t, from_c_str alloc_ (c_str bytes) = .ok t ∧ t.data_.isSome ∧
      t.size = .ok bytes.length ∧ t.capacity = bytes.length ∧ t.content = .ok bytes ∧
      t.operator_eq (c_str bytes) = .ok true := by
  have hlen : traits_length (c_str bytes) = .ok bytes.length :=
    traits_length_append bytes [] (fun b hb hb0 => hz (hb0 ▸ hb))
  obtain ⟨new_data, hnd⟩ := allocate_of_not_refused hal
  have hd0 : default.size = .ok 0 := rfl
  have hcap : default.capacity < bytes.length := by
    show SMALL_CAPACITY - 1 < bytes.length
    omega
  have hres := reserve_grow inv_default hcap hl hM hnd hd0
  obtain ⟨k1, k2, k3, k4, k5⟩ := @moved_facts bytes.length 0 default new_data hM hl
    (Nat.zero_le _) (by decide) (allocate_some hnd)
  have hfit : bytes.length ≤ (moved default bytes.length 0 new_data).data.length := by
    have := capacity_lt_data_length k1
    omega
  have hn : bytes.length < SIZE_MOD := by omega
  have htake : (c_str bytes).take bytes.length = bytes := by simp [c_str]
  have ht := operator_assign_eq hlen hres hfit
  rw [assigned_some _ _ k5, htake] at ht
  have hsz := size_heap_mk
    (bytes ++ (default.data.take 0 ++ 0 :: new_data.drop (0 + 1)).drop bytes.length)
    (moved default bytes.length 0 new_data).storage hn
  refine ⟨_, ?_, ?_, hsz, ?_, ?_, operator_eq_of_content hz hsz rfl⟩
  · rw [from_c_str_eq]
    exact ht
  · rfl
  · rw [capacity_heap_mk]
    rw [capacity_of_some k5] at k3
    exact k3
  · rw [content_eq hsz (by simp [data])]
    simp [data]

/-- C19 at `"0123456789abcdefg"`. -/
theorem C19_construct_heap_witness :
    ∃ t, from_c_str stale_allocator
        (c_str [48, 49, 50, 51, 52, 53, 54, 55, 56, 57, 97, 98, 99, 100, 101, 102, 103])
        = .ok t ∧ t.data_.isSome ∧
      t.size = .ok [48, 49, 50, 51, 52, 53, 54, 55, 56, 57, 97, 98, 99, 100, 101, 102,
        (103 : Byte)].length ∧
      t.capacity = [48, 49, 50, 51, 52, 53, 54, 55, 56, 57, 97, 98, 99, 100, 101, 102,
        (103 : Byte)].length ∧
      t.content = .ok [48, 49, 50, 51, 52, 53, 54, 55, 56, 57, 97, 98, 99, 100, 101, 102, 103] ∧
      t.operator_eq
        (c_str [48, 49, 50, 51, 52, 53, 54, 55, 56, 57, 97, 98, 99, 100, 101, 102, 103])
        = .ok true :=
  C19_construct_heap stale_allocator
    [48, 49, 50, 51, 52, 53, 54, 55, 56, 57, 97, 98, 99, 100, 101, 102, 103] (by decide)
    (by decide) (by decide) rfl

/-- C20 fails on the code: the inline array of a reachable inline instance has 16
bytes, and `resize(16, c)` as well as the assignment of a 16-byte sequence reach, through
`reserve(16)`, the store `small_data_[16] = '\0'` at index 16. -/
theorem C20_inline_store_out_of_bounds (alloc_ : Allocator) (c : Byte) (bytes : List Byte)
    (s : SmallString) (h : Reachable s) (hd : s.data_ = none) (hz : 0 ∉ bytes)
    (hl : bytes.length = SMALL_CAPACITY) :
    s.storage.length = SMALL_CAPACITY ∧
      store s.storage SMALL_CAPACITY 0 = .error .undefined ∧
      s.resize alloc_ SMALL_CAPACITY c = .error .undefined ∧
      s.operator_assign alloc_ (c_str bytes) = .error .undefined := by
  have hi := reachable_inv h
  have hr := reserve_small_capacity_inline alloc_ hi hd
  obtain ⟨sz, hsz, hszc, -⟩ := size_of_inv hi
  have hL : s.small_size = .ok sz := by simpa [size, hd] using hsz
  have hlt : sz < SMALL_CAPACITY := by
    rw [capacity_of_none hd] at hszc
    simp only [SMALL_CAPACITY] at *
    omega
  have hlen : traits_length (c_str bytes) = .ok SMALL_CAPACITY := by
    rw [← hl]
    exact traits_length_append bytes [] (fun b hb hb0 => hz (hb0 ▸ hb))
  refine ⟨hi.1, ?_, ?_, ?_⟩
  · simp [store, hi.1]
  · simp [resize, hd, hL, hlt, hr, bind, Except.bind]
  · simp [operator_assign, hlen, hr, bind, Except.bind]

/-- C20 at the inline instance `"abc"`. -/
theorem C20_inline_store_out_of_bounds_witness :
    abc.storage.length = SMALL_CAPACITY ∧
      store abc.storage SMALL_CAPACITY 0 = .error .undefined ∧
      abc.resize stale_allocator SMALL_CAPACITY 120 = .error .undefined ∧
      abc.operator_assign stale_allocator
        (c_str [48, 49, 50, 51, 52, 53, 54, 55, 56, 57, 97, 98, 99, 100, 101, 102])
        = .error .undefined :=
  C20_inline_store_out_of_bounds stale_allocator 120
    [48, 49, 50, 51, 52, 53, 54, 55, 56, 57, 97, 98, 99, 100, 101, 102] abc abc_reachable rfl
    (by decide) (by decide)

end gregjm
